import Mathlib

/-! uwaterloo-schedule-exporter: the formatting core of `main.js`.

A shallow embedding of `src/main.js`.  JavaScript strings are lists of UTF-16
code units, numbers that the code computes are integers or `NaN`, a `Date` is
the number of its local calendar day, and the rows that jQuery selects are
records of the texts the selectors return.
-/

namespace ScheduleExporter

/-! ## JavaScript strings -/

/-- A JavaScript string, as the list of its UTF-16 code units. -/
abbrev JSString := List Nat

/-- The UTF-16 code units of one character. -/
def utf16Char (c : Char) : List Nat :=
  if c.toNat < 65536 then [c.toNat]
  else [55296 + (c.toNat - 65536) / 1024, 56320 + (c.toNat - 65536) % 1024]

/-- The JavaScript string that a literal denotes. -/
def utf16 (s : String) : JSString := s.toList.flatMap utf16Char

/-- The regular expression class `\d`: the ASCII digits. -/
def isDigit (c : Nat) : Bool := decide (48 ≤ c) && decide (c ≤ 57)

/-- The regular expression class `[A-Za-z]`. -/
def isLetter (c : Nat) : Bool :=
  (decide (65 ≤ c) && decide (c ≤ 90)) || (decide (97 ≤ c) && decide (c ≤ 122))

/-- The regular expression class `\s`, which is also what `String.prototype.trim`
and the numeric conversions strip: ECMAScript WhiteSpace and LineTerminator. -/
def isSpace (c : Nat) : Bool :=
  c == 9 || c == 10 || c == 11 || c == 12 || c == 13 || c == 32 || c == 160 ||
  c == 5760 || (decide (8192 ≤ c) && decide (c ≤ 8202)) || c == 8232 || c == 8233 ||
  c == 8239 || c == 8287 || c == 12288 || c == 65279

/-- The method `String.prototype.trim`. -/
def jsTrim (s : JSString) : JSString :=
  ((s.dropWhile isSpace).reverse.dropWhile isSpace).reverse

/-- The test `s.match(/[AP]M/)`: some `A` or `P` is directly followed by `M`. -/
def matchesAPM : JSString → Bool
  | a :: b :: rest => ((a == 65 || a == 80) && b == 77) || matchesAPM (b :: rest)
  | _ => false

/-- The test `s.match(/PM/)`. -/
def matchesPM : JSString → Bool
  | a :: b :: rest => (a == 80 && b == 77) || matchesPM (b :: rest)
  | _ => false

/-- The call `s.split(sep)` for a separator of one code unit, as the first
piece and the list of the others: the result of `split` is never empty. -/
def splitOn (sep : Nat) : JSString → JSString × List JSString
  | [] => ([], [])
  | c :: cs =>
    if c = sep then ([], (splitOn sep cs).1 :: (splitOn sep cs).2)
    else (c :: (splitOn sep cs).1, (splitOn sep cs).2)

/-! ## JavaScript numbers -/

/-- The number values the code computes: an integer or `NaN`. -/
inductive JSNum where
  | nan
  | int (v : Int)
  deriving DecidableEq, Repr

/-- Decimal digits of a natural number, most significant first, onto `acc`. -/
def natDigits : Nat → Nat → List Nat → List Nat
  | 0, _, acc => acc
  | fuel + 1, n, acc =>
    if n < 10 then (48 + n) :: acc else natDigits fuel (n / 10) ((48 + n % 10) :: acc)

/-- The conversion `Number::toString` of a natural number. -/
def natToString (n : Nat) : JSString := natDigits (n + 1) n []

/-- The conversion `Number::toString` of an integer. -/
def intToString (v : Int) : JSString :=
  if v < 0 then 45 :: natToString v.natAbs else natToString v.natAbs

/-- The conversion of a number to a string, as `+` with a string does it. -/
def numToString : JSNum → JSString
  | .nan => utf16 "NaN"
  | .int v => intToString v

/-- The value of a list of decimal digits. -/
def digitsValue (s : JSString) : Nat := s.foldl (fun acc c => 10 * acc + (c - 48)) 0

/-- The comparison `s < k` of a string with a number, which converts the string
with `ToNumber`.  Modelled for the strings that are, between white space, empty
(the number 0) or a run of decimal digits; the other strings (signs, fractions,
exponents, other radixes, `Infinity`, and the ones that give `NaN`) are outside
the model, `none`. -/
def stringLtNat (s : JSString) (k : Nat) : Option Bool :=
  if jsTrim s = [] then some (decide (0 < k))
  else if (jsTrim s).all isDigit then some (decide (digitsValue (jsTrim s) < k))
  else none

/-- The call `parseInt(s, 10)`: leading white space, an optional sign, and the
longest run of decimal digits; `NaN` when that run is empty. -/
def parseInt10 (s : JSString) : JSNum :=
  match s.dropWhile isSpace with
  | [] => .nan
  | c :: cs =>
    if c = 45 then
      (if (cs.takeWhile isDigit) = [] then .nan else .int (-(digitsValue (cs.takeWhile isDigit) : Int)))
    else if c = 43 then
      (if (cs.takeWhile isDigit) = [] then .nan else .int (digitsValue (cs.takeWhile isDigit)))
    else
      (if ((c :: cs).takeWhile isDigit) = [] then .nan
       else .int (digitsValue ((c :: cs).takeWhile isDigit)))

/-- The sum `x + k` of a number and a natural number; `none` when the sum is
not an integer that a double holds exactly (above 2^53), outside the model. -/
def numAddNat : JSNum → Nat → Option JSNum
  | .nan, _ => some .nan
  | .int v, k =>
    if v.natAbs + k ≤ 9007199254740992 then some (.int (v + k)) else none

/-! ## `getTimeString` -/

/-- The function `getTimeString(time)` of `main.js`.  The result is `none` only
where the numeric conversions of the `PM` branch leave the model
(`stringLtNat`, `numAddNat`). -/
def getTimeString (time : JSString) : Option JSString :=
  let timeString := if matchesAPM time then time.take (time.length - 2) else time
  let parts := splitOn 58 timeString
  let parts0 := if parts.1.length ≠ 2 then 48 :: parts.1 else parts.1
  let timeString := (parts0 :: parts.2).flatten ++ utf16 "00"
  if matchesPM time then
    match stringLtNat parts0 12 with
    | none => none
    | some true => (numAddNat (parseInt10 timeString) 120000).map numToString
    | some false => some timeString
  else some timeString

/-- The two decimal digits of a number below 100. -/
def twoDigits (n : Nat) : JSString := [48 + n / 10, 48 + n % 10]

/-! ## `Date`

A `Date` made from a calendar date holds local midnight, and `getFullYear`,
`getMonth`, `getDate` and `setDate` read and write local calendar fields only.
The model keeps the number of the local day (day 0 is 1 January 1970) and
follows the day arithmetic of ECMAScript (`DayFromYear`, `YearFromTime`,
`MonthFromTime`, `DateFromTime`, `MakeDay`).  The time of day, the zone and the
bound of 10^8 days on time values are not modelled. -/

/-- ECMAScript `DayFromYear(y)`: the day number of 1 January of year `y`. -/
def dayFromYear (y : Int) : Int :=
  365 * (y - 1970) + (y - 1969) / 4 - (y - 1901) / 100 + (y - 1601) / 400

/-- ECMAScript `InLeapYear`, for a year: 1 in a leap year, 0 otherwise. -/
def inLeapYear (y : Int) : Int :=
  if y % 4 ≠ 0 then 0 else if y % 100 ≠ 0 then 1 else if y % 400 ≠ 0 then 0 else 1

/-- ECMAScript `YearFromTime`: the largest year `y` with `dayFromYear y ≤ t`.
The year is one of the three around `1970 + t / 365.2425`. -/
def yearFromDay (t : Int) : Int :=
  if dayFromYear (1970 + (t * 400) / 146097 + 1) ≤ t then 1970 + (t * 400) / 146097 + 1
  else if dayFromYear (1970 + (t * 400) / 146097) ≤ t then 1970 + (t * 400) / 146097
  else 1970 + (t * 400) / 146097 - 1

/-- ECMAScript `DayWithinYear`. -/
def dayWithinYear (t : Int) : Int := t - dayFromYear (yearFromDay t)

/-- The day within the year on which month `m` (0 to 11) starts, `leap` being 0 or 1. -/
def monthStart (m leap : Int) : Int :=
  if m = 0 then 0 else if m = 1 then 31 else if m = 2 then 59 + leap
  else if m = 3 then 90 + leap else if m = 4 then 120 + leap else if m = 5 then 151 + leap
  else if m = 6 then 181 + leap else if m = 7 then 212 + leap else if m = 8 then 243 + leap
  else if m = 9 then 273 + leap else if m = 10 then 304 + leap else 334 + leap

/-- The month, 0 for January, of the day `w` within a year, `leap` being 0 or 1:
the table of ECMAScript `MonthFromTime`. -/
def monthOfYearDay (w leap : Int) : Int :=
  if w < 31 then 0
  else if w < 59 + leap then 1
  else if w < 90 + leap then 2
  else if w < 120 + leap then 3
  else if w < 151 + leap then 4
  else if w < 181 + leap then 5
  else if w < 212 + leap then 6
  else if w < 243 + leap then 7
  else if w < 273 + leap then 8
  else if w < 304 + leap then 9
  else if w < 334 + leap then 10
  else 11

/-- ECMAScript `MonthFromTime`: 0 is January. -/
def monthFromDay (t : Int) : Int :=
  monthOfYearDay (dayWithinYear t) (inLeapYear (yearFromDay t))

/-- ECMAScript `DateFromTime`: the day of the month, from 1. -/
def dateFromDay (t : Int) : Int :=
  dayWithinYear t - monthStart (monthFromDay t) (inLeapYear (yearFromDay t)) + 1

/-- ECMAScript `MakeDay(year, month, date)` for integer arguments: the month
is carried into the year, and `date` counts from the first day of that month,
below 1 and beyond the end of the month included. -/
def makeDay (year month date : Int) : Int :=
  dayFromYear (year + month / 12) + monthStart (month % 12) (inLeapYear (year + month / 12))
    + date - 1

/-- A `Date` object: `Invalid Date`, or the number of its local day. -/
inductive JSDate where
  | invalid
  | day (t : Int)
  deriving DecidableEq, Repr

/-- The method `Date.prototype.getFullYear`. -/
def JSDate.getFullYear : JSDate → JSNum
  | .invalid => .nan
  | .day t => .int (yearFromDay t)

/-- The method `Date.prototype.getMonth`. -/
def JSDate.getMonth : JSDate → JSNum
  | .invalid => .nan
  | .day t => .int (monthFromDay t)

/-- The method `Date.prototype.getDate`. -/
def JSDate.getDate : JSDate → JSNum
  | .invalid => .nan
  | .day t => .int (dateFromDay t)

/-- The method `Date.prototype.setDate`, as the date it leaves in the object. -/
def JSDate.setDate : JSDate → JSNum → JSDate
  | .day t, .int dt => .day (makeDay (yearFromDay t) (monthFromDay t) dt)
  | _, _ => .invalid

/-- The sum `x + k` for an integer `k`, on the small numbers of calendar fields. -/
def JSNum.add : JSNum → Int → JSNum
  | .nan, _ => .nan
  | .int v, k => .int (v + k)

/-- The comparison `x < k`, false for `NaN`. -/
def JSNum.lt : JSNum → Int → Bool
  | .nan, _ => false
  | .int v, k => decide (v < k)

/-! ## The formatting functions of `main.js` -/

/-- The function `getDateString(date)` of `main.js`. -/
def getDateString (date : JSDate) : JSString :=
  let month := date.getMonth.add 1
  let month := if month.lt 10 then utf16 "0" ++ numToString month else numToString month
  let day := date.getDate
  let day := if day.lt 10 then utf16 "0" ++ numToString day else numToString day
  utf16 "" ++ numToString date.getFullYear ++ month ++ day

/-- The function `getDateTimeString(date, time)` of `main.js`. -/
def getDateTimeString (date : JSDate) (time : JSString) : Option JSString :=
  (getTimeString time).map fun t => getDateString date ++ utf16 "T" ++ t

/-- The method `Array.prototype.join(',')`. -/
def joinComma : List JSString → JSString
  | [] => []
  | [x] => x
  | x :: y :: rest => x ++ 44 :: joinComma (y :: rest)

/-- The function `getDaysOfWeek(daysOfWeek)` of `main.js`. -/
def getDaysOfWeek (daysOfWeek : JSString) : JSString :=
  let daysOfWeek := jsTrim daysOfWeek
  let formattedDays : List JSString := []
  let formattedDays :=
    if daysOfWeek = utf16 "Dim" then formattedDays ++ [utf16 "SU"] else formattedDays
  let formattedDays :=
    if daysOfWeek = utf16 "Lun" then formattedDays ++ [utf16 "MO"] else formattedDays
  let formattedDays :=
    if daysOfWeek = utf16 "Ma" then formattedDays ++ [utf16 "TU"] else formattedDays
  let formattedDays :=
    if daysOfWeek = utf16 "Mer" then formattedDays ++ [utf16 "WE"] else formattedDays
  let formattedDays :=
    if daysOfWeek = utf16 "J" then formattedDays ++ [utf16 "TH"] else formattedDays
  let formattedDays :=
    if daysOfWeek = utf16 "V" then formattedDays ++ [utf16 "FR"] else formattedDays
  let formattedDays :=
    if daysOfWeek = utf16 "Sa" then formattedDays ++ [utf16 "SA"] else formattedDays
  joinComma formattedDays

/-- The function `wrapICalContent(iCalContent)` of `main.js`. -/
def wrapICalContent (iCalContent : JSString) : JSString :=
  utf16 "BEGIN:VCALENDAR\n" ++
    utf16 "VERSION:2.0\n" ++
    utf16 "PRODID:-//Baraa Hamodi/uWaterloo Schedule Exporter//EN\n" ++
    iCalContent ++
    utf16 "END:VCALENDAR\n"

/-! ## Calendar dates

The dates of the calendar as triples of a year, a month from 1 and a day of the
month, with the day before and the day after as the calendar has them: what the
statements about `main` compare the arithmetic of `Date` with. -/

/-- The `Date` of a calendar date, the month counted from 1. -/
def civilDate (y : Int) (m d : Nat) : JSDate := .day (makeDay y ((m : Int) - 1) d)

/-- The number of days of month `m` (1 to 12) of year `y`. -/
def daysInMonth (y : Int) (m : Nat) : Nat :=
  if m = 2 then 28 + (inLeapYear y).toNat
  else if m = 4 ∨ m = 6 ∨ m = 9 ∨ m = 11 then 30 else 31

/-- A calendar date: a month from 1 to 12 and a day of that month. -/
def ValidCivil (y : Int) (m d : Nat) : Prop :=
  1 ≤ m ∧ m ≤ 12 ∧ 1 ≤ d ∧ d ≤ daysInMonth y m

instance (y : Int) (m d : Nat) : Decidable (ValidCivil y m d) := by
  unfold ValidCivil; infer_instance

/-- The calendar day before a calendar date: the day before in the month, or
the last day of the month before, or 31 December of the year before. -/
def dayBefore (y : Int) (m d : Nat) : Int × Nat × Nat :=
  if 1 < d then (y, m, d - 1)
  else if 1 < m then (y, m - 1, daysInMonth y (m - 1))
  else (y - 1, 12, 31)

/-- The calendar day after a calendar date: the next day of the month, or the
first day of the next month, or 1 January of the next year. -/
def dayAfter (y : Int) (m d : Nat) : Int × Nat × Nat :=
  if d < daysInMonth y m then (y, m, d + 1)
  else if m < 12 then (y, m + 1, 1)
  else (y + 1, 1, 1)

/-! ## The regular expressions of `main` -/

/-- The optional group `([AP]M)?` at the head of a string: the length it takes. -/
def suffixLen : JSString → Nat
  | a :: m :: _ => if (a = 65 ∨ a = 80) ∧ m = 77 then 2 else 0
  | _ => 0

/-- The tail `:\d\d([AP]M)?` at the head of a string: the length of the match. -/
def timeTailAt : JSString → Option Nat
  | c :: d :: e :: rest =>
    if c = 58 ∧ isDigit d = true ∧ isDigit e = true then some (3 + suffixLen rest) else none
  | _ => none

/-- The expression `\d\d?:\d\d([AP]M)?` at the head of a string: the length of
the match.  The second digit is tried first, then left out. -/
def matchTimeAt : JSString → Option Nat
  | a :: b :: rest =>
    if isDigit a then
      if isDigit b then
        match timeTailAt rest with
        | some n => some (2 + n)
        | none => (timeTailAt (b :: rest)).map (1 + ·)
      else (timeTailAt (b :: rest)).map (1 + ·)
    else none
  | _ => none

/-- The expression `\d{2}\/\d{2}\/\d{4}` at the head of a string: the length of
the match. -/
def matchDateAt : JSString → Option Nat
  | a :: b :: c :: d :: e :: f :: g :: h :: i :: j :: _ =>
    if isDigit a = true ∧ isDigit b = true ∧ c = 47 ∧ isDigit d = true ∧ isDigit e = true ∧
        f = 47 ∧ isDigit g = true ∧ isDigit h = true ∧ isDigit i = true ∧ isDigit j = true
    then some 10 else none
  | _ => none

/-- The expression `[A-Za-z]* ` at the head of a string: the length of the
match.  Only the longest run of letters can be followed by a space. -/
def matchDayAt (s : JSString) : Option Nat :=
  match s.dropWhile isLetter with
  | c :: _ => if c = 32 then some ((s.takeWhile isLetter).length + 1) else none
  | [] => none

/-- The matches of `s.match(re)` for a global expression that matches no empty
string, `matchAt` giving the length of the match at the head of a string;
`skip` counts the code units still inside the last match.  The empty list
stands for the `null` that `match` returns when nothing matches. -/
def globalMatch (matchAt : JSString → Option Nat) : Nat → JSString → List JSString
  | _, [] => []
  | skip + 1, _ :: cs => globalMatch matchAt skip cs
  | 0, c :: cs =>
    match matchAt (c :: cs) with
    | some n => (c :: cs).take n :: globalMatch matchAt (n - 1) cs
    | none => globalMatch matchAt 0 cs

/-- The first match `s.match(re)[0]` of an expression without the global flag,
`none` for the `null` of no match. -/
def firstMatch (matchAt : JSString → Option Nat) : JSString → Option JSString
  | [] => none
  | c :: cs =>
    match matchAt (c :: cs) with
    | some n => some ((c :: cs).take n)
    | none => firstMatch matchAt cs

/-- The call `s.split(sep)` for a separator string that is not empty, as the first
piece and the list of the others; `skip` counts the code units of the separator
still to pass. -/
def splitStr (sep : JSString) : Nat → JSString → JSString × List JSString
  | _, [] => ([], [])
  | skip + 1, _ :: cs => splitStr sep skip cs
  | 0, c :: cs =>
    if sep.isPrefixOf (c :: cs) then
      ([], (splitStr sep (sep.length - 1) cs).1 :: (splitStr sep (sep.length - 1) cs).2)
    else (c :: (splitStr sep 0 cs).1, (splitStr sep 0 cs).2)

/-- The call `s.replace(/\s{2,}/g, ' ')`, read from left to right.  `pending` is
the run of white space being read: `none` outside a run, `some (c, false)` after
its first code unit `c`, `some (c, true)` once the run has two or more. -/
def replaceSpaceRuns : Option (Nat × Bool) → JSString → JSString
  | none, [] => []
  | some (c, false), [] => [c]
  | some (_, true), [] => [32]
  | none, x :: xs =>
    if isSpace x then replaceSpaceRuns (some (x, false)) xs else x :: replaceSpaceRuns none xs
  | some (c, false), x :: xs =>
    if isSpace x then replaceSpaceRuns (some (c, true)) xs else c :: x :: replaceSpaceRuns none xs
  | some (c, true), x :: xs =>
    if isSpace x then replaceSpaceRuns (some (c, true)) xs else 32 :: x :: replaceSpaceRuns none xs

/-! ## `main` -/

/-- One `tr` of a component table, as the texts that the selectors of `main`
find in it (the empty string where a selector finds nothing). -/
structure Row where
  /-- Text of `span[id*="DERIVED_CLS_DTL_CLASS_NBR"]`. -/
  classNumber : JSString
  /-- Text of `a[id*="MTG_SECTION"]`. -/
  sectionText : JSString
  /-- Text of `span[id*="MTG_COMP"]`. -/
  component : JSString
  /-- Text of `span[id*="MTG_SCHED"]`. -/
  daysTimes : JSString
  /-- Text of `span[id*="MTG_LOC"]`. -/
  room : JSString
  /-- Text of `span[id*="DERIVED_CLS_DTL_SSR_INSTR_LONG"]`. -/
  instructor : JSString
  /-- Text of `span[id*="MTG_DATES"]`. -/
  startEndDate : JSString
  deriving DecidableEq, Repr

/-- One `.PSGROUPBOXWBO` box: the text of its `.PAGROUPDIVIDER` and the rows of
its `.PSLEVEL3GRID` table in document order, each row the next sibling of the
one before. -/
structure Group where
  title : JSString
  componentRows : List Row
  deriving DecidableEq, Repr

/-- The variables `classNumber`, `section` and `component` of a row. -/
structure Ids where
  classNumber : JSString
  sectionText : JSString
  component : JSString
  deriving DecidableEq, Repr

/-- The condition of the `while` loop, without `prev.length > 0`. -/
def Ids.incomplete (ids : Ids) : Bool :=
  decide (ids.classNumber = []) || decide (ids.sectionText = []) || decide (ids.component = [])

/-- The body of the `while` loop for the sibling `prev`. -/
def Ids.fillFrom (ids : Ids) (prev : Row) : Ids :=
  { classNumber := if ids.classNumber = [] then prev.classNumber else ids.classNumber
    sectionText := if ids.sectionText = [] then prev.sectionText else ids.sectionText
    component := if ids.component = [] then prev.component else ids.component }

/-- The `while` loop of `main` over the preceding siblings of a row, nearest
first: `prev = prev.prev()` moves to the tail, and `prev.length > 0` fails on
the empty list.  The result is the variables after the loop and the siblings
that the loop did not visit. -/
def carryForward (ids : Ids) : List Row → Ids × List Row
  | [] => (ids, [])
  | prev :: rest =>
    if ids.incomplete then carryForward (ids.fillFrom prev) rest else (ids, prev :: rest)

/-- What ends `main` before its normal end: a `TypeError` that the code throws,
or a numeric conversion outside the model. -/
inductive Abort where
  | typeError
  | outsideModel
  deriving DecidableEq, Repr

/-- Equality of the results of a run is decidable. -/
instance decEqExcept {ε α : Type} [DecidableEq ε] [DecidableEq α] : DecidableEq (Except ε α)
  | .ok a, .ok b =>
    if h : a = b then isTrue (congrArg Except.ok h)
    else isFalse (fun h1 => h (Except.ok.inj h1))
  | .error a, .error b =>
    if h : a = b then isTrue (congrArg Except.error h)
    else isFalse (fun h1 => h (Except.error.inj h1))
  | .ok _, .error _ => isFalse (fun h => Except.noConfusion h)
  | .error _, .ok _ => isFalse (fun h => Except.noConfusion h)

/-- The call `getDateTimeString(date, time)` where `time` may be `undefined`:
`time.match` then throws a `TypeError`. -/
def dateTimeOf (date : JSDate) : Option JSString → Except Abort JSString
  | none => .error .typeError
  | some time =>
    match getDateTimeString date time with
    | some s => .ok s
    | none => .error .outsideModel

/-- The concatenation of a string with a value that may be `undefined`. -/
def orUndefined : Option JSString → JSString
  | none => utf16 "undefined"
  | some s => s

/-- The variables `iCalContentArray` and `numberOfEvents` of `main`. -/
structure Acc where
  iCalContentArray : List JSString
  numberOfEvents : Nat
  deriving DecidableEq, Repr

/-- The text of one event before the white space is collapsed: the
concatenation that `main` assigns to `iCalContent`. -/
def eventTemplate (timezone dtStart dtEnd untilDt exdate daysOfWeek courseCode : JSString)
    (courseName : Option JSString) (ids : Ids) (row : Row) : JSString :=
  utf16 "BEGIN:VEVENT\n" ++
  utf16 "DTSTART;TZID=" ++ timezone ++ utf16 ":" ++ dtStart ++ utf16 "\n" ++
  utf16 "DTEND;TZID=" ++ timezone ++ utf16 ":" ++ dtEnd ++ utf16 "\n" ++
  utf16 "LOCATION:" ++ row.room ++ utf16 "\n" ++
  utf16 "RRULE:FREQ=WEEKLY;UNTIL=" ++ untilDt ++ utf16 "Z;BYDAY=" ++ daysOfWeek ++ utf16 "\n" ++
  utf16 "EXDATE;TZID=" ++ timezone ++ utf16 ":" ++ exdate ++ utf16 "\n" ++
  utf16 "SUMMARY:" ++ courseCode ++ utf16 " (" ++ ids.component ++ utf16 ")" ++ utf16 "\n" ++
  utf16 "DESCRIPTION:" ++
    utf16 "Nom du cours: " ++ orUndefined courseName ++ utf16 "\\n" ++
    utf16 "Section: " ++ ids.sectionText ++ utf16 "\\n" ++
    utf16 "Instructeur: " ++ row.instructor ++ utf16 "\\n" ++
    utf16 "Volet: " ++ ids.component ++ utf16 "\\n" ++
    utf16 "Numéro du cours: " ++ ids.classNumber ++ utf16 "\\n" ++
    utf16 "Jour/Heures: " ++ row.daysTimes ++ utf16 "\\n" ++
    utf16 "Dates de début/fin: " ++ row.startEndDate ++ utf16 "\\n" ++
    utf16 "Lieu: " ++ row.room ++ utf16 "\\n\n" ++
  utf16 "END:VEVENT\n"

/-- The callback of `componentRows.each` for one row.  `momentL` stands for
`moment(text, 'L').toDate()` in the locale that `main` has set, `prevs` are the
preceding siblings of the row, nearest first. -/
def processRow (momentL : JSString → JSDate) (courseCode : JSString)
    (courseName : Option JSString) (acc : Acc) (prevs : List Row) (row : Row) :
    Except Abort Acc :=
  let timezone := utf16 "America/Toronto"
  let ids := (carryForward ⟨row.classNumber, row.sectionText, row.component⟩ prevs).1
  let daysTimes := row.daysTimes
  match globalMatch matchTimeAt 0 daysTimes with
  | [] => .ok acc
  | startTime :: moreTimes =>
    match firstMatch matchDayAt daysTimes with
    | none => .error .typeError
    | some dayToken =>
      let daysOfWeek := getDaysOfWeek dayToken
      let endTime := moreTimes.head?
      match globalMatch matchDateAt 0 row.startEndDate with
      | [] => .error .typeError
      | startDateText :: moreDates =>
        let endDateText := moreDates.headD startDateText
        let startDate := momentL startDateText
        let startDate := startDate.setDate (startDate.getDate.add (-1))
        let endDate := momentL endDateText
        let endDate := endDate.setDate (endDate.getDate.add 1)
        match dateTimeOf startDate (some startTime) with
        | .error e => .error e
        | .ok dtStart =>
        match dateTimeOf startDate endTime with
        | .error e => .error e
        | .ok dtEnd =>
        match dateTimeOf endDate endTime with
        | .error e => .error e
        | .ok untilDt =>
        match dateTimeOf startDate (some startTime) with
        | .error e => .error e
        | .ok exdate =>
          let iCalContent := eventTemplate timezone dtStart dtEnd untilDt exdate daysOfWeek
            courseCode courseName ids row
          let iCalContent := replaceSpaceRuns none iCalContent
          .ok { iCalContentArray := acc.iCalContentArray ++ [iCalContent]
                numberOfEvents := acc.numberOfEvents + 1 }

/-- The loop `componentRows.each` over the rows still to visit, `prevs` being
the rows already visited, nearest first.  An exception ends the loop. -/
def eachRow (momentL : JSString → JSDate) (courseCode : JSString)
    (courseName : Option JSString) : Acc → List Row → List Row → Except Abort Acc
  | acc, _, [] => .ok acc
  | acc, prevs, row :: rest =>
    match processRow momentL courseCode courseName acc prevs row with
    | .error e => .error e
    | .ok acc1 => eachRow momentL courseCode courseName acc1 (row :: prevs) rest

/-- The loop over the `.PSGROUPBOXWBO` boxes. -/
def eachGroup (momentL : JSString → JSDate) : Acc → List Group → Except Abort Acc
  | acc, [] => .ok acc
  | acc, g :: gs =>
    let eventTitle := splitStr (utf16 " - ") 0 g.title
    let courseCode := eventTitle.1
    let courseName := eventTitle.2.head?
    match eachRow momentL courseCode courseName acc [] g.componentRows with
    | .error e => .error e
    | .ok acc1 => eachGroup momentL acc1 gs

/-- The extraction part of `main`: the two loops from the empty array and the
count 0. -/
def main (momentL : JSString → JSDate) (groups : List Group) : Except Abort Acc :=
  eachGroup momentL { iCalContentArray := [], numberOfEvents := 0 } groups

/-- The calendar text that `main` puts behind the download link,
`wrapICalContent(iCalContentArray.join(''))`, when some event was found. -/
def calendarText (acc : Acc) : Option JSString :=
  if acc.numberOfEvents = 0 then none else some (wrapICalContent acc.iCalContentArray.flatten)

/-- The parser `moment(text, 'L')` where `L` is `MM/DD/YYYY`, on the texts
that `\d{2}\/\d{2}\/\d{4}` matches: the stand-in for `momentL` in examples. -/
def momentMDY (text : JSString) : JSDate :=
  match text with
  | [m1, m2, _, d1, d2, _, y1, y2, y3, y4] =>
    if ValidCivil (digitsValue [y1, y2, y3, y4] : Nat) (digitsValue [m1, m2]) (digitsValue [d1, d2])
    then civilDate (digitsValue [y1, y2, y3, y4] : Nat) (digitsValue [m1, m2]) (digitsValue [d1, d2])
    else .invalid
  | _ => .invalid

/-! ## The carry-forward rule, in the words of the specification -/

/-- The first value of a list that is not empty, the empty string when there is
none.  On a row's own value followed by the values of the rows before it,
nearest first, this is the rule of the specification: the own value when it is
not empty, otherwise the value of the nearest preceding row that has one. -/
def nearestNonEmpty : List JSString → JSString
  | [] => []
  | v :: vs => if v = [] then nearestNonEmpty vs else v

/-- The three identifying fields, each filled by `nearestNonEmpty` from the rows
`rows`, nearest first. -/
def filledFrom (ids : Ids) (rows : List Row) : Ids :=
  { classNumber := nearestNonEmpty (ids.classNumber :: rows.map (·.classNumber))
    sectionText := nearestNonEmpty (ids.sectionText :: rows.map (·.sectionText))
    component := nearestNonEmpty (ids.component :: rows.map (·.component)) }

/-! ## White space in a string -/

/-- No white space in a string. -/
def noSpace (s : JSString) : Bool := s.all fun c => !isSpace c

/-- No two code units of white space in a row, and none at the end. -/
def stableSeg : JSString → Bool
  | [] => true
  | [a] => !isSpace a
  | a :: b :: rest => (!isSpace a || !isSpace b) && stableSeg (b :: rest)

/-- The `Date` of a calendar date given as a triple. -/
def civilOf (p : Int × Nat × Nat) : JSDate := civilDate p.1 p.2.1 p.2.2

/-! ## Example rows -/

/-- A lecture on Mondays from 1:00PM to 2:20PM, 5 January to 10 April 2015. -/
def lectureRow : Row :=
  { classNumber := utf16 "1234"
    sectionText := utf16 "A"
    component := utf16 "TH"
    daysTimes := utf16 "Lun 1:00PM - 2:20PM"
    room := utf16 "MC 2034"
    instructor := utf16 "Ada Lovelace"
    startEndDate := utf16 "01/05/2015 - 04/10/2015" }

/-- The lecture with a schedule text that holds a start time only. -/
def oneTimeRow : Row := { lectureRow with daysTimes := utf16 "Lun 1:00PM" }

/-- The lecture with a room text that ends with a space. -/
def spaceRoomRow : Row := { lectureRow with room := utf16 "MC 2034 " }

/-- The group box of the example rows. -/
def exampleTitle : JSString := utf16 "MAT 1400 - Calcul 1"

/-- The event block of `lectureRow` in the group `exampleTitle`. -/
def lectureBlock : JSString :=
  utf16 "BEGIN:VEVENT\nDTSTART;TZID=America/Toronto:20150104T130000\nDTEND;TZID=America/Toronto:20150104T142000\nLOCATION:MC 2034\nRRULE:FREQ=WEEKLY;UNTIL=20150411T142000Z;BYDAY=MO\nEXDATE;TZID=America/Toronto:20150104T130000\nSUMMARY:MAT 1400 (TH)\nDESCRIPTION:Nom du cours: Calcul 1\\nSection: A\\nInstructeur: Ada Lovelace\\nVolet: TH\\nNuméro du cours: 1234\\nJour/Heures: Lun 1:00PM - 2:20PM\\nDates de début/fin: 01/05/2015 - 04/10/2015\\nLieu: MC 2034\\n\nEND:VEVENT\n"

/-- The event block of `spaceRoomRow` in the group `exampleTitle`: the room and
the rule share a line. -/
def spaceRoomBlock : JSString :=
  utf16 "BEGIN:VEVENT\nDTSTART;TZID=America/Toronto:20150104T130000\nDTEND;TZID=America/Toronto:20150104T142000\nLOCATION:MC 2034 RRULE:FREQ=WEEKLY;UNTIL=20150411T142000Z;BYDAY=MO\nEXDATE;TZID=America/Toronto:20150104T130000\nSUMMARY:MAT 1400 (TH)\nDESCRIPTION:Nom du cours: Calcul 1\\nSection: A\\nInstructeur: Ada Lovelace\\nVolet: TH\\nNuméro du cours: 1234\\nJour/Heures: Lun 1:00PM - 2:20PM\\nDates de début/fin: 01/05/2015 - 04/10/2015\\nLieu: MC 2034 \\n\nEND:VEVENT\n"

end ScheduleExporter

namespace ScheduleExporter

/-! ## Literals -/

theorem utf16_empty : utf16 "" = [] := by decide
theorem utf16_colon : utf16 ":" = [58] := by decide
theorem utf16_zero : utf16 "0" = [48] := by decide
theorem utf16_zeros : utf16 "00" = [48, 48] := by decide
theorem utf16_AM : utf16 "AM" = [65, 77] := by decide
theorem utf16_PM : utf16 "PM" = [80, 77] := by decide
theorem utf16_T : utf16 "T" = [84] := by decide

theorem isDigit_iff (c : Nat) : isDigit c = true ↔ 48 ≤ c ∧ c ≤ 57 := by
  simp [isDigit]

/-! ## The calendar of `Date` -/

theorem inLeapYear_cases (y : Int) : inLeapYear y = 0 ∨ inLeapYear y = 1 := by
  unfold inLeapYear; split_ifs <;> simp

theorem yearFromDay_le (t : Int) : dayFromYear (yearFromDay t) ≤ t := by
  unfold yearFromDay
  split_ifs with h1 h2
  · exact h1
  · exact h2
  · unfold dayFromYear at *; omega

theorem lt_yearFromDay_succ (t : Int) : t < dayFromYear (yearFromDay t + 1) := by
  unfold yearFromDay
  split_ifs with h1 h2
  · unfold dayFromYear at *; omega
  · omega
  · have e : (1970 + t * 400 / 146097 - 1 + 1 : Int) = 1970 + t * 400 / 146097 := by ring
    rw [e]; omega

theorem dayFromYear_succ (y : Int) :
    dayFromYear (y + 1) = dayFromYear y + 365 + inLeapYear y := by
  unfold dayFromYear inLeapYear
  split_ifs <;> omega

theorem dayFromYear_mono {a b : Int} (h : a ≤ b) : dayFromYear a ≤ dayFromYear b := by
  unfold dayFromYear; omega

theorem yearFromDay_unique {t y : Int} (h1 : dayFromYear y ≤ t) (h2 : t < dayFromYear (y + 1)) :
    yearFromDay t = y := by
  have a1 := yearFromDay_le t
  have a2 := lt_yearFromDay_succ t
  rcases lt_trichotomy (yearFromDay t) y with h | h | h
  · have := dayFromYear_mono (show yearFromDay t + 1 ≤ y by omega); omega
  · exact h
  · have := dayFromYear_mono (show y + 1 ≤ yearFromDay t by omega); omega

/-- The model of `YearFromTime` is the largest year that starts on or before the day. -/
theorem yearFromDay_largest {t y : Int} (h : dayFromYear y ≤ t) : y ≤ yearFromDay t := by
  by_contra hc
  have a2 := lt_yearFromDay_succ t
  have := dayFromYear_mono (show yearFromDay t + 1 ≤ y by omega)
  omega

theorem dayWithinYear_bounds (t : Int) :
    0 ≤ dayWithinYear t ∧ dayWithinYear t < 365 + inLeapYear (yearFromDay t) := by
  have a1 := yearFromDay_le t
  have a2 := lt_yearFromDay_succ t
  rw [dayFromYear_succ] at a2
  unfold dayWithinYear; omega

theorem monthOfYearDay_spec (w l r : Int) (h : monthOfYearDay w l = r) :
    (w < 31 ∧ r = 0) ∨ (31 ≤ w ∧ w < 59 + l ∧ r = 1) ∨ (59 + l ≤ w ∧ w < 90 + l ∧ r = 2) ∨
    (90 + l ≤ w ∧ w < 120 + l ∧ r = 3) ∨ (120 + l ≤ w ∧ w < 151 + l ∧ r = 4) ∨
    (151 + l ≤ w ∧ w < 181 + l ∧ r = 5) ∨ (181 + l ≤ w ∧ w < 212 + l ∧ r = 6) ∨
    (212 + l ≤ w ∧ w < 243 + l ∧ r = 7) ∨ (243 + l ≤ w ∧ w < 273 + l ∧ r = 8) ∨
    (273 + l ≤ w ∧ w < 304 + l ∧ r = 9) ∨ (304 + l ≤ w ∧ w < 334 + l ∧ r = 10) ∨
    (334 + l ≤ w ∧ r = 11) := by
  unfold monthOfYearDay at h
  by_cases h1 : w < 31
  · rw [if_pos h1] at h; exact Or.inl ⟨by omega, by omega⟩
  rw [if_neg h1] at h
  by_cases h2 : w < 59 + l
  · rw [if_pos h2] at h; exact Or.inr (Or.inl ⟨by omega, by omega, by omega⟩)
  rw [if_neg h2] at h
  by_cases h3 : w < 90 + l
  · rw [if_pos h3] at h; exact Or.inr (Or.inr (Or.inl ⟨by omega, by omega, by omega⟩))
  rw [if_neg h3] at h
  by_cases h4 : w < 120 + l
  · rw [if_pos h4] at h; exact Or.inr (Or.inr (Or.inr (Or.inl ⟨by omega, by omega, by omega⟩)))
  rw [if_neg h4] at h
  by_cases h5 : w < 151 + l
  · rw [if_pos h5] at h; exact Or.inr (Or.inr (Or.inr (Or.inr (Or.inl ⟨by omega, by omega, by omega⟩))))
  rw [if_neg h5] at h
  by_cases h6 : w < 181 + l
  · rw [if_pos h6] at h; exact Or.inr (Or.inr (Or.inr (Or.inr (Or.inr (Or.inl ⟨by omega, by omega, by omega⟩)))))
  rw [if_neg h6] at h
  by_cases h7 : w < 212 + l
  · rw [if_pos h7] at h; exact Or.inr (Or.inr (Or.inr (Or.inr (Or.inr (Or.inr (Or.inl ⟨by omega, by omega, by omega⟩))))))
  rw [if_neg h7] at h
  by_cases h8 : w < 243 + l
  · rw [if_pos h8] at h; exact Or.inr (Or.inr (Or.inr (Or.inr (Or.inr (Or.inr (Or.inr (Or.inl ⟨by omega, by omega, by omega⟩)))))))
  rw [if_neg h8] at h
  by_cases h9 : w < 273 + l
  · rw [if_pos h9] at h; exact Or.inr (Or.inr (Or.inr (Or.inr (Or.inr (Or.inr (Or.inr (Or.inr (Or.inl ⟨by omega, by omega, by omega⟩))))))))
  rw [if_neg h9] at h
  by_cases h10 : w < 304 + l
  · rw [if_pos h10] at h; exact Or.inr (Or.inr (Or.inr (Or.inr (Or.inr (Or.inr (Or.inr (Or.inr (Or.inr (Or.inl ⟨by omega, by omega, by omega⟩)))))))))
  rw [if_neg h10] at h
  by_cases h11 : w < 334 + l
  · rw [if_pos h11] at h; exact Or.inr (Or.inr (Or.inr (Or.inr (Or.inr (Or.inr (Or.inr (Or.inr (Or.inr (Or.inr (Or.inl ⟨by omega, by omega, by omega⟩))))))))))
  rw [if_neg h11] at h
  exact Or.inr (Or.inr (Or.inr (Or.inr (Or.inr (Or.inr (Or.inr (Or.inr (Or.inr (Or.inr (Or.inr (⟨by omega, by omega⟩)))))))))))

theorem monthStart_spec (m l r : Int) (h : monthStart m l = r) :
    (m = 0 ∧ r = 0) ∨ (m = 1 ∧ r = 31) ∨ (m = 2 ∧ r = 59 + l) ∨ (m = 3 ∧ r = 90 + l) ∨
    (m = 4 ∧ r = 120 + l) ∨ (m = 5 ∧ r = 151 + l) ∨ (m = 6 ∧ r = 181 + l) ∨
    (m = 7 ∧ r = 212 + l) ∨ (m = 8 ∧ r = 243 + l) ∨ (m = 9 ∧ r = 273 + l) ∨
    (m = 10 ∧ r = 304 + l) ∨ ((m < 0 ∨ 10 < m) ∧ r = 334 + l) := by
  unfold monthStart at h
  by_cases h0 : m = 0
  · rw [if_pos h0] at h; exact Or.inl ⟨by omega, by omega⟩
  rw [if_neg h0] at h
  by_cases h1 : m = 1
  · rw [if_pos h1] at h; exact Or.inr (Or.inl ⟨by omega, by omega⟩)
  rw [if_neg h1] at h
  by_cases h2 : m = 2
  · rw [if_pos h2] at h; exact Or.inr (Or.inr (Or.inl ⟨by omega, by omega⟩))
  rw [if_neg h2] at h
  by_cases h3 : m = 3
  · rw [if_pos h3] at h; exact Or.inr (Or.inr (Or.inr (Or.inl ⟨by omega, by omega⟩)))
  rw [if_neg h3] at h
  by_cases h4 : m = 4
  · rw [if_pos h4] at h; exact Or.inr (Or.inr (Or.inr (Or.inr (Or.inl ⟨by omega, by omega⟩))))
  rw [if_neg h4] at h
  by_cases h5 : m = 5
  · rw [if_pos h5] at h; exact Or.inr (Or.inr (Or.inr (Or.inr (Or.inr (Or.inl ⟨by omega, by omega⟩)))))
  rw [if_neg h5] at h
  by_cases h6 : m = 6
  · rw [if_pos h6] at h; exact Or.inr (Or.inr (Or.inr (Or.inr (Or.inr (Or.inr (Or.inl ⟨by omega, by omega⟩))))))
  rw [if_neg h6] at h
  by_cases h7 : m = 7
  · rw [if_pos h7] at h; exact Or.inr (Or.inr (Or.inr (Or.inr (Or.inr (Or.inr (Or.inr (Or.inl ⟨by omega, by omega⟩)))))))
  rw [if_neg h7] at h
  by_cases h8 : m = 8
  · rw [if_pos h8] at h; exact Or.inr (Or.inr (Or.inr (Or.inr (Or.inr (Or.inr (Or.inr (Or.inr (Or.inl ⟨by omega, by omega⟩))))))))
  rw [if_neg h8] at h
  by_cases h9 : m = 9
  · rw [if_pos h9] at h; exact Or.inr (Or.inr (Or.inr (Or.inr (Or.inr (Or.inr (Or.inr (Or.inr (Or.inr (Or.inl ⟨by omega, by omega⟩)))))))))
  rw [if_neg h9] at h
  by_cases h10 : m = 10
  · rw [if_pos h10] at h; exact Or.inr (Or.inr (Or.inr (Or.inr (Or.inr (Or.inr (Or.inr (Or.inr (Or.inr (Or.inr (Or.inl ⟨by omega, by omega⟩))))))))))
  rw [if_neg h10] at h
  exact Or.inr (Or.inr (Or.inr (Or.inr (Or.inr (Or.inr (Or.inr (Or.inr (Or.inr (Or.inr (Or.inr (⟨by omega, by omega⟩)))))))))))

theorem monthOfYearDay_bounds (w l : Int) : 0 ≤ monthOfYearDay w l ∧ monthOfYearDay w l ≤ 11 := by
  have a := monthOfYearDay_spec w l _ rfl
  omega

theorem monthFromDay_bounds (t : Int) : 0 ≤ monthFromDay t ∧ monthFromDay t ≤ 11 :=
  monthOfYearDay_bounds _ _

theorem makeDay_fields (t k : Int) :
    makeDay (yearFromDay t) (monthFromDay t) (dateFromDay t + k) = t + k := by
  have hm := monthFromDay_bounds t
  have h1 : monthFromDay t / 12 = 0 := by omega
  have h2 : monthFromDay t % 12 = monthFromDay t := by omega
  unfold makeDay dateFromDay
  rw [h1, h2, add_zero]
  unfold dayWithinYear; omega

theorem monthDay_bounds (w l : Int) (h0 : 0 ≤ w) (h1 : w < 365 + l) (hl : l = 0 ∨ l = 1) :
    1 ≤ w - monthStart (monthOfYearDay w l) l + 1 ∧
      w - monthStart (monthOfYearDay w l) l + 1 ≤ 31 := by
  have a := monthOfYearDay_spec w l _ rfl
  have b := monthStart_spec (monthOfYearDay w l) l _ rfl
  omega

theorem dateFromDay_bounds (t : Int) : 1 ≤ dateFromDay t ∧ dateFromDay t ≤ 31 := by
  have hb := dayWithinYear_bounds t
  exact monthDay_bounds _ _ hb.1 hb.2 (inLeapYear_cases _)

theorem monthOfYearDay_start (m : Nat) (d : Nat) (l : Int) (m1 : 1 ≤ m) (m12 : m ≤ 12)
    (d1 : 1 ≤ d) (hl : l = 0 ∨ l = 1)
    (dn : (d : Int) ≤ if m = 2 then 28 + l else if m = 4 ∨ m = 6 ∨ m = 9 ∨ m = 11 then 30 else 31) :
    monthOfYearDay (monthStart ((m : Int) - 1) l + d - 1) l = (m : Int) - 1 := by
  have a := monthOfYearDay_spec (monthStart ((m : Int) - 1) l + d - 1) l _ rfl
  have b := monthStart_spec ((m : Int) - 1) l _ rfl
  split_ifs at dn <;> omega

theorem daysInMonth_cast (y : Int) (m : Nat) :
    ((daysInMonth y m : Nat) : Int)
      = if m = 2 then 28 + inLeapYear y else if m = 4 ∨ m = 6 ∨ m = 9 ∨ m = 11 then 30 else 31 := by
  have hl := inLeapYear_cases y
  unfold daysInMonth
  split_ifs <;> omega

theorem monthStart_bounds (m : Nat) (l : Int) (m1 : 1 ≤ m) (m12 : m ≤ 12) (hl : l = 0 ∨ l = 1) :
    0 ≤ monthStart ((m : Int) - 1) l ∧
      monthStart ((m : Int) - 1) l +
        (if m = 2 then 28 + l else if m = 4 ∨ m = 6 ∨ m = 9 ∨ m = 11 then 30 else 31) ≤ 365 + l := by
  have b := monthStart_spec ((m : Int) - 1) l _ rfl
  split_ifs <;> omega

theorem civil_fields (y : Int) (m d : Nat) (hv : ValidCivil y m d) :
    yearFromDay (makeDay y ((m : Int) - 1) d) = y ∧
      monthFromDay (makeDay y ((m : Int) - 1) d) = (m : Int) - 1 ∧
      dateFromDay (makeDay y ((m : Int) - 1) d) = d := by
  obtain ⟨m1, m12, d1, dn⟩ := hv
  have hl := inLeapYear_cases y
  have dn' : (d : Int) ≤ (daysInMonth y m : Nat) := by exact_mod_cast dn
  rw [daysInMonth_cast] at dn'
  have hs := monthStart_bounds m (inLeapYear y) m1 m12 hl
  have h1 : ((m : Int) - 1) / 12 = 0 := by omega
  have h2 : ((m : Int) - 1) % 12 = (m : Int) - 1 := by omega
  have hmk : makeDay y ((m : Int) - 1) d
      = dayFromYear y + monthStart ((m : Int) - 1) (inLeapYear y) + d - 1 := by
    unfold makeDay; rw [h1, h2, add_zero]
  have hy : yearFromDay (makeDay y ((m : Int) - 1) d) = y := by
    apply yearFromDay_unique
    · rw [hmk]; omega
    · rw [dayFromYear_succ, hmk]; omega
  have hw : dayWithinYear (makeDay y ((m : Int) - 1) d)
      = monthStart ((m : Int) - 1) (inLeapYear y) + d - 1 := by
    unfold dayWithinYear; rw [hy, hmk]; omega
  have hmo : monthFromDay (makeDay y ((m : Int) - 1) d) = (m : Int) - 1 := by
    unfold monthFromDay; rw [hw, hy]
    exact monthOfYearDay_start m d _ m1 m12 d1 hl dn'
  refine ⟨hy, hmo, ?_⟩
  unfold dateFromDay; rw [hmo, hy, hw]; omega

theorem setDate_getDate_add (t k : Int) :
    (JSDate.day t).setDate ((JSDate.day t).getDate.add k) = .day (t + k) := by
  simp only [JSDate.setDate, JSDate.getDate, JSNum.add, makeDay_fields]

theorem makeDay_month (y : Int) (m : Nat) (d : Int) (m1 : 1 ≤ m) (m12 : m ≤ 12) :
    makeDay y ((m : Int) - 1) d
      = dayFromYear y + monthStart ((m : Int) - 1) (inLeapYear y) + d - 1 := by
  have h1 : ((m : Int) - 1) / 12 = 0 := by omega
  have h2 : ((m : Int) - 1) % 12 = (m : Int) - 1 := by omega
  unfold makeDay; rw [h1, h2, add_zero]

theorem daysInMonth_bounds (y : Int) (m : Nat) : 28 ≤ daysInMonth y m ∧ daysInMonth y m ≤ 31 := by
  have hl := inLeapYear_cases y
  unfold daysInMonth
  split_ifs <;> omega

theorem dayBefore_spec (y : Int) (m d : Nat) (hv : ValidCivil y m d) :
    ValidCivil (dayBefore y m d).1 (dayBefore y m d).2.1 (dayBefore y m d).2.2 ∧
      makeDay (dayBefore y m d).1 (((dayBefore y m d).2.1 : Nat) - 1) ((dayBefore y m d).2.2 : Nat)
        = makeDay y ((m : Int) - 1) d - 1 := by
  obtain ⟨m1, m12, d1, dn⟩ := hv
  unfold dayBefore
  by_cases hd : 1 < d
  · rw [if_pos hd]
    dsimp only
    refine ⟨⟨m1, m12, by omega, by omega⟩, ?_⟩
    rw [makeDay_month y m _ m1 m12, makeDay_month y m _ m1 m12]
    omega
  rw [if_neg hd]
  by_cases hm : 1 < m
  · rw [if_pos hm]
    dsimp only
    have hb := daysInMonth_bounds y (m - 1)
    refine ⟨⟨by omega, by omega, by omega, le_refl _⟩, ?_⟩
    rw [makeDay_month y (m - 1) _ (by omega) (by omega), makeDay_month y m _ m1 m12,
      daysInMonth_cast]
    have hl := inLeapYear_cases y
    have a := monthStart_spec (((m - 1 : Nat) : Int) - 1) (inLeapYear y) _ rfl
    have b := monthStart_spec ((m : Int) - 1) (inLeapYear y) _ rfl
    split_ifs <;> omega
  rw [if_neg hm]
  have hm1 : m = 1 := by omega
  have hd1 : d = 1 := by omega
  subst hm1 hd1
  dsimp only
  refine ⟨⟨by omega, by omega, by omega, by simp [daysInMonth]⟩, ?_⟩
  rw [makeDay_month (y - 1) 12 _ (by omega) (by omega), makeDay_month y 1 _ (by omega) (by omega)]
  have e := dayFromYear_succ (y - 1)
  rw [sub_add_cancel] at e
  have a : monthStart (((12 : Nat) : Int) - 1) (inLeapYear (y - 1)) = 334 + inLeapYear (y - 1) := by
    simp [monthStart]
  have b : monthStart (((1 : Nat) : Int) - 1) (inLeapYear y) = 0 := by
    simp [monthStart]
  rw [a, b, e]
  push_cast
  omega

theorem dayAfter_spec (y : Int) (m d : Nat) (hv : ValidCivil y m d) :
    ValidCivil (dayAfter y m d).1 (dayAfter y m d).2.1 (dayAfter y m d).2.2 ∧
      makeDay (dayAfter y m d).1 (((dayAfter y m d).2.1 : Nat) - 1) ((dayAfter y m d).2.2 : Nat)
        = makeDay y ((m : Int) - 1) d + 1 := by
  obtain ⟨m1, m12, d1, dn⟩ := hv
  unfold dayAfter
  by_cases hd : d < daysInMonth y m
  · rw [if_pos hd]
    dsimp only
    refine ⟨⟨m1, m12, by omega, by omega⟩, ?_⟩
    rw [makeDay_month y m _ m1 m12, makeDay_month y m _ m1 m12]
    push_cast
    omega
  rw [if_neg hd]
  have hd' : d = daysInMonth y m := by omega
  by_cases hm : m < 12
  · rw [if_pos hm]
    dsimp only
    have hb := daysInMonth_bounds y (m + 1)
    refine ⟨⟨by omega, by omega, le_refl _, by omega⟩, ?_⟩
    rw [makeDay_month y (m + 1) _ (by omega) (by omega), makeDay_month y m _ m1 m12, hd',
      daysInMonth_cast]
    have hl := inLeapYear_cases y
    have a := monthStart_spec (((m + 1 : Nat) : Int) - 1) (inLeapYear y) _ rfl
    have b := monthStart_spec ((m : Int) - 1) (inLeapYear y) _ rfl
    split_ifs <;> omega
  rw [if_neg hm]
  have hm12 : m = 12 := by omega
  subst hm12
  have hd31 : d = 31 := by rw [hd']; simp [daysInMonth]
  subst hd31
  dsimp only
  refine ⟨⟨by omega, by omega, by omega, by have := daysInMonth_bounds (y + 1) 1; omega⟩, ?_⟩
  rw [makeDay_month (y + 1) 1 _ (by omega) (by omega), makeDay_month y 12 _ (by omega) (by omega)]
  have e := dayFromYear_succ y
  have a : monthStart (((12 : Nat) : Int) - 1) (inLeapYear y) = 334 + inLeapYear y := by
    simp [monthStart]
  have b : monthStart (((1 : Nat) : Int) - 1) (inLeapYear (y + 1)) = 0 := by
    simp [monthStart]
  rw [a, b, e]
  push_cast
  omega

/-- Setting the day of the month one back gives the calendar day before. -/
theorem setDate_before (y : Int) (m d : Nat) (hv : ValidCivil y m d) :
    (civilDate y m d).setDate ((civilDate y m d).getDate.add (-1))
      = civilDate (dayBefore y m d).1 (dayBefore y m d).2.1 (dayBefore y m d).2.2 := by
  unfold civilDate
  rw [setDate_getDate_add, (dayBefore_spec y m d hv).2]
  rfl

/-- Setting the day of the month one forward gives the calendar day after. -/
theorem setDate_after (y : Int) (m d : Nat) (hv : ValidCivil y m d) :
    (civilDate y m d).setDate ((civilDate y m d).getDate.add 1)
      = civilDate (dayAfter y m d).1 (dayAfter y m d).2.1 (dayAfter y m d).2.2 := by
  unfold civilDate
  rw [setDate_getDate_add, (dayAfter_spec y m d hv).2]

/-! ## Decimal digits -/

theorem natDigits_all_digit (fuel n : Nat) (acc : List Nat) (h : acc.all isDigit = true) :
    (natDigits fuel n acc).all isDigit = true := by
  induction fuel generalizing n acc with
  | zero => simpa [natDigits] using h
  | succ k ih =>
    unfold natDigits
    split_ifs with hn
    · have : isDigit (48 + n) = true := by rw [isDigit_iff]; omega
      simp [this, h]
    · apply ih
      have : isDigit (48 + n % 10) = true := by rw [isDigit_iff]; omega
      simp [this, h]

theorem natToString_all_digit (n : Nat) : (natToString n).all isDigit = true :=
  natDigits_all_digit _ _ _ rfl

theorem intToString_natCast (n : Nat) : intToString (n : Int) = natToString n := by
  simp [intToString]

theorem natToString_four (n : Nat) (h1 : 1000 ≤ n) (h2 : n ≤ 9999) :
    (natToString n).length = 4 := by
  have e : n + 1 = (n - 3) + 1 + 1 + 1 + 1 := by omega
  rw [natToString, e]
  simp only [natDigits]
  rw [if_neg (by omega), if_neg (by omega), if_neg (by omega), if_pos (by omega)]
  rfl

theorem pad_twoDigits_table :
    ∀ n, n < 100 →
      (if n < 10 then utf16 "0" ++ natToString n else natToString n) = twoDigits n := by
  decide!

theorem pad_twoDigits (n : Nat) (h : n < 100) :
    (if (JSNum.int (n : Int)).lt 10 then utf16 "0" ++ numToString (.int (n : Int))
      else numToString (.int (n : Int))) = twoDigits n := by
  have := pad_twoDigits_table n h
  simp only [JSNum.lt, numToString, intToString_natCast]
  by_cases hn : n < 10
  · rw [if_pos hn] at this
    rw [if_pos (by simpa using (by exact_mod_cast hn : (n : Int) < 10))]
    exact this
  · rw [if_neg hn] at this
    rw [if_neg (by simpa using (by omega : ¬ (n : Int) < 10))]
    exact this

theorem twoDigits_all_digit (n : Nat) (h : n < 100) : (twoDigits n).all isDigit = true := by
  have h1 : isDigit (48 + n / 10) = true := by rw [isDigit_iff]; omega
  have h2 : isDigit (48 + n % 10) = true := by rw [isDigit_iff]; omega
  simp [twoDigits, h1, h2]

/-! ## `getDateString` -/

theorem getDateString_eq (y : Int) (m d : Nat) (hv : ValidCivil y m d) :
    getDateString (civilDate y m d) = intToString y ++ twoDigits m ++ twoDigits d := by
  obtain ⟨hy, hm, hd⟩ := civil_fields y m d hv
  have hb := daysInMonth_bounds y m
  obtain ⟨m1, m12, d1, dn⟩ := hv
  unfold getDateString civilDate
  simp only [JSDate.getMonth, JSDate.getDate, JSDate.getFullYear, JSNum.add, hy, hm, hd,
    sub_add_cancel, utf16_empty, List.nil_append]
  rw [pad_twoDigits m (by omega), pad_twoDigits d (by omega)]
  rfl

/-- C3, as the code has it: for every calendar date, `getDateString` gives the
decimal digits of the year, not padded, then the month and the day of the month
on two digits each; the result has eight code units, all digits, when the year
is between 1000 and 9999. -/
theorem getDateString_civil (y : Int) (m d : Nat) (hv : ValidCivil y m d) :
    getDateString (civilDate y m d) = intToString y ++ twoDigits m ++ twoDigits d ∧
      (1000 ≤ y → y ≤ 9999 →
        (getDateString (civilDate y m d)).length = 8 ∧
          (getDateString (civilDate y m d)).all isDigit = true) := by
  refine ⟨getDateString_eq y m d hv, fun h1 h2 => ?_⟩
  rw [getDateString_eq y m d hv]
  have hb := daysInMonth_bounds y m
  obtain ⟨m1, m12, d1, dn⟩ := hv
  obtain ⟨n, rfl⟩ : ∃ n : Nat, y = n := ⟨y.toNat, by omega⟩
  rw [intToString_natCast]
  constructor
  · simp [natToString_four n (by omega) (by omega), twoDigits]
  · simp only [List.all_append, natToString_all_digit, twoDigits_all_digit m (by omega),
      twoDigits_all_digit d (by omega), Bool.and_self]

/-- C3 at 22 January 2015: `'20150122'`. -/
theorem getDateString_civil_witness :
    ValidCivil 2015 1 22 ∧ getDateString (civilDate 2015 1 22) = utf16 "20150122" :=
  ⟨by decide, (getDateString_civil 2015 1 22 (by decide)).1.trans (by decide)⟩

/-- C3 fails as stated: 22 January 999 is a calendar date, and `getDateString`
gives the seven code units `'9990122'` for it. -/
theorem getDateString_year_999 :
    ValidCivil 999 1 22 ∧ getDateString (civilDate 999 1 22) = utf16 "9990122" ∧
      (getDateString (civilDate 999 1 22)).length ≠ 8 := by
  decide

/-! ## `getTimeString` -/

set_option maxRecDepth 100000 in
theorem getTimeString_pm_table :
    ∀ h, h < 13 → ∀ mm, mm < 60 → 1 ≤ h →
      getTimeString (natToString h ++ utf16 ":" ++ twoDigits mm ++ utf16 "PM")
          = some (twoDigits (if h < 12 then h + 12 else 12) ++ twoDigits mm ++ utf16 "00") ∧
      getTimeString (twoDigits h ++ utf16 ":" ++ twoDigits mm ++ utf16 "PM")
          = some (twoDigits (if h < 12 then h + 12 else 12) ++ twoDigits mm ++ utf16 "00") := by
  decide!

/-- C1: for every hour `h` from 1 to 12, written with one or two digits, and
every minute `mm` from 00 to 59, `getTimeString(h + ':' + mm + 'PM')` is the
two digits of `h + 12` when `h < 12` and `12` when `h = 12`, then `mm`, then
`00`: six code units. -/
theorem getTimeString_pm (h mm : Nat) (hs : JSString) (h1 : 1 ≤ h) (h12 : h ≤ 12)
    (hmm : mm ≤ 59) (hhs : hs = natToString h ∨ hs = twoDigits h) :
    getTimeString (hs ++ utf16 ":" ++ twoDigits mm ++ utf16 "PM")
        = some (twoDigits (if h < 12 then h + 12 else 12) ++ twoDigits mm ++ utf16 "00") ∧
      (twoDigits (if h < 12 then h + 12 else 12) ++ twoDigits mm ++ utf16 "00").length = 6 := by
  refine ⟨?_, by simp [twoDigits, utf16_zeros]⟩
  have key := getTimeString_pm_table h (by omega) mm (by omega) h1
  rcases hhs with rfl | rfl
  · exact key.1
  · exact key.2

/-- C1, at `'4:30PM'`, `'04:30PM'` and `'12:00PM'`. -/
theorem getTimeString_pm_witness :
    getTimeString (utf16 "4:30PM") = some (utf16 "163000") ∧
      getTimeString (utf16 "04:30PM") = some (utf16 "163000") ∧
      getTimeString (utf16 "12:00PM") = some (utf16 "120000") :=
  ⟨(getTimeString_pm 4 30 (utf16 "4") (by decide) (by decide) (by decide) (Or.inl (by decide))).1,
   (getTimeString_pm 4 30 (utf16 "04") (by decide) (by decide) (by decide) (Or.inr (by decide))).1,
   (getTimeString_pm 12 0 (utf16 "12") (by decide) (by decide) (by decide) (Or.inl (by decide))).1⟩

/-- Without `PM`, on digits, `getTimeString` pads the hour and appends `00`. -/
theorem getTimeString_plain (hs ms suf : JSString)
    (hh : hs.all isDigit = true) (hl : hs.length = 1 ∨ hs.length = 2)
    (hm : ms.all isDigit = true) (hml : ms.length = 2)
    (hsuf : suf = utf16 "" ∨ suf = utf16 "AM") :
    getTimeString (hs ++ utf16 ":" ++ ms ++ suf)
        = some ((if hs.length = 1 then utf16 "0" ++ hs else hs) ++ ms ++ utf16 "00") := by
  obtain ⟨c, d, rfl⟩ : ∃ c d, ms = [c, d] := by
    match ms, hml with
    | [c, d], _ => exact ⟨c, d, rfl⟩
  simp only [List.all_cons, List.all_nil, Bool.and_true, Bool.and_eq_true, isDigit_iff] at hm
  obtain ⟨⟨hc1, hc2⟩, hd1, hd2⟩ := hm
  have c65 : c ≠ 65 := by omega
  have c80 : c ≠ 80 := by omega
  have c58 : c ≠ 58 := by omega
  have d58 : d ≠ 58 := by omega
  have d77 : d ≠ 77 := by omega
  rw [utf16_empty] at hsuf
  rcases hl with hl | hl
  · obtain ⟨a, rfl⟩ : ∃ a, hs = [a] := by
      match hs, hl with
      | [a], _ => exact ⟨a, rfl⟩
    simp only [List.all_cons, List.all_nil, Bool.and_true, isDigit_iff] at hh
    have a65 : a ≠ 65 := by omega
    have a80 : a ≠ 80 := by omega
    have a58 : a ≠ 58 := by omega
    rcases hsuf with rfl | rfl <;>
      simp [getTimeString, utf16_colon, utf16_AM, utf16_zeros, utf16_zero, matchesAPM,
        matchesPM, splitOn, *]
  · obtain ⟨a, b, rfl⟩ : ∃ a b, hs = [a, b] := by
      match hs, hl with
      | [a, b], _ => exact ⟨a, b, rfl⟩
    simp only [List.all_cons, List.all_nil, Bool.and_true, Bool.and_eq_true, isDigit_iff] at hh
    obtain ⟨⟨ha1, ha2⟩, hb1, hb2⟩ := hh
    have a65 : a ≠ 65 := by omega
    have a80 : a ≠ 80 := by omega
    have a58 : a ≠ 58 := by omega
    have b65 : b ≠ 65 := by omega
    have b80 : b ≠ 80 := by omega
    have b58 : b ≠ 58 := by omega
    have b77 : b ≠ 77 := by omega
    rcases hsuf with rfl | rfl <;>
      simp [getTimeString, utf16_colon, utf16_AM, utf16_zeros, utf16_zero, matchesAPM,
        matchesPM, splitOn, *]

/-- C2: on a time with the suffix `AM` or without suffix, an hour of one or two
digits and a minute of two digits, `getTimeString` adjusts nothing: the result
is the hour padded with `0` to two digits, the minute and `00`, six code units. -/
theorem getTimeString_no_pm (hs ms suf : JSString)
    (hh : hs.all isDigit = true) (hl : hs.length = 1 ∨ hs.length = 2)
    (hm : ms.all isDigit = true) (hml : ms.length = 2)
    (hsuf : suf = utf16 "" ∨ suf = utf16 "AM") :
    getTimeString (hs ++ utf16 ":" ++ ms ++ suf)
        = some ((if hs.length = 1 then utf16 "0" ++ hs else hs) ++ ms ++ utf16 "00") ∧
      ((if hs.length = 1 then utf16 "0" ++ hs else hs) ++ ms ++ utf16 "00").length = 6 := by
  refine ⟨getTimeString_plain hs ms suf hh hl hm hml hsuf, ?_⟩
  rcases hl with hl | hl
  · rw [if_pos hl]
    simp [hl, hml, utf16_zero, utf16_zeros]
  · rw [if_neg (by omega)]
    simp [hl, hml, utf16_zeros]

/-- C2, at `'4:30'` and `'12:00AM'`. -/
theorem getTimeString_no_pm_witness :
    getTimeString (utf16 "4:30") = some (utf16 "043000") ∧
      getTimeString (utf16 "12:00AM") = some (utf16 "120000") :=
  ⟨(getTimeString_no_pm (utf16 "4") (utf16 "30") (utf16 "") (by decide) (by decide)
      (by decide) (by decide) (Or.inl rfl)).1,
   (getTimeString_no_pm (utf16 "12") (utf16 "00") (utf16 "AM") (by decide) (by decide)
      (by decide) (by decide) (Or.inr rfl)).1⟩

/-! ## `getDaysOfWeek` -/

/-- C4: `getDaysOfWeek` looks the trimmed input up in the table `Dim`, `Lun`,
`Ma`, `Mer`, `J`, `V`, `Sa`: the result is the one code of the entry that the
trimmed input equals, and the empty string when it equals none. -/
theorem getDaysOfWeek_lookup (s : JSString) :
    getDaysOfWeek s =
      if jsTrim s = utf16 "Dim" then utf16 "SU"
      else if jsTrim s = utf16 "Lun" then utf16 "MO"
      else if jsTrim s = utf16 "Ma" then utf16 "TU"
      else if jsTrim s = utf16 "Mer" then utf16 "WE"
      else if jsTrim s = utf16 "J" then utf16 "TH"
      else if jsTrim s = utf16 "V" then utf16 "FR"
      else if jsTrim s = utf16 "Sa" then utf16 "SA"
      else utf16 "" := by
  unfold getDaysOfWeek
  generalize jsTrim s = t
  by_cases h1 : t = utf16 "Dim"
  · subst h1; decide
  by_cases h2 : t = utf16 "Lun"
  · subst h2; decide
  by_cases h3 : t = utf16 "Ma"
  · subst h3; decide
  by_cases h4 : t = utf16 "Mer"
  · subst h4; decide
  by_cases h5 : t = utf16 "J"
  · subst h5; decide
  by_cases h6 : t = utf16 "V"
  · subst h6; decide
  by_cases h7 : t = utf16 "Sa"
  · subst h7; decide
  simp only [h1, h2, h3, h4, h5, h6, h7, if_false, joinComma, utf16_empty]

/-- C8: `getDaysOfWeek('MTWThF')` is the empty string, where the comment above
the function promises `'MO,TU,WE,TH,FR'`. -/
theorem getDaysOfWeek_MTWThF :
    getDaysOfWeek (utf16 "MTWThF") = utf16 "" ∧
      getDaysOfWeek (utf16 "MTWThF") ≠ utf16 "MO,TU,WE,TH,FR" := by
  decide

/-! ## `wrapICalContent` -/

set_option maxRecDepth 100000 in
theorem envelope_no_vevent :
    ¬ (utf16 "VEVENT" <:+: wrapICalContent ([] : List JSString).flatten) := by
  decide!

/-- C7: `wrapICalContent` of the concatenation of any list of event blocks is
the three header lines, the blocks in their order, and the closing line; for
the empty list it is the envelope alone, in which `VEVENT` does not occur. -/
theorem wrapICalContent_blocks (blocks : List JSString) :
    wrapICalContent blocks.flatten =
        utf16 "BEGIN:VCALENDAR\n" ++ utf16 "VERSION:2.0\n" ++
          utf16 "PRODID:-//Baraa Hamodi/uWaterloo Schedule Exporter//EN\n" ++
          blocks.foldr (fun b rest => b ++ rest) (utf16 "END:VCALENDAR\n") ∧
      wrapICalContent ([] : List JSString).flatten =
        utf16 "BEGIN:VCALENDAR\nVERSION:2.0\nPRODID:-//Baraa Hamodi/uWaterloo Schedule Exporter//EN\nEND:VCALENDAR\n" ∧
      ¬ (utf16 "VEVENT" <:+: wrapICalContent ([] : List JSString).flatten) := by
  refine ⟨?_, by decide, envelope_no_vevent⟩
  unfold wrapICalContent
  induction blocks with
  | nil => simp
  | cons b bs ih =>
    simp only [List.flatten_cons, List.foldr_cons, List.append_assoc] at ih ⊢
    rw [List.append_cancel_left_eq] at ih ⊢
    rw [List.append_cancel_left_eq] at ih ⊢
    rw [List.append_cancel_left_eq] at ih ⊢
    rw [ih]

/-! ## The carry-forward loop -/

theorem nearestNonEmpty_single (v : JSString) : nearestNonEmpty [v] = v := by
  unfold nearestNonEmpty
  split_ifs with h
  · rw [h]; rfl
  · rfl

theorem filledFrom_nil (ids : Ids) : filledFrom ids [] = ids := by
  cases ids
  simp [filledFrom, nearestNonEmpty_single]

theorem filledFrom_cons (ids : Ids) (p : Row) (ps : List Row) :
    filledFrom ids (p :: ps) = filledFrom (ids.fillFrom p) ps := by
  simp only [filledFrom, Ids.fillFrom, List.map_cons, Ids.mk.injEq]
  refine ⟨?_, ?_, ?_⟩ <;>
  · rw [nearestNonEmpty]
    split_ifs with h
    · rfl
    · rw [nearestNonEmpty, if_neg h]

theorem filledFrom_complete (ids : Ids) (rows : List Row) (h : ids.incomplete = false) :
    filledFrom ids rows = ids := by
  cases ids with
  | mk a b c =>
    simp only [Ids.incomplete, Bool.or_eq_false_iff, decide_eq_false_iff_not] at h
    simp [filledFrom, nearestNonEmpty, h.1.1, h.1.2, h.2]

theorem carryForward_fields (prevs : List Row) (ids : Ids) :
    (carryForward ids prevs).1 = filledFrom ids prevs := by
  induction prevs generalizing ids with
  | nil => rw [carryForward, filledFrom_nil]
  | cons p ps ih =>
    rw [carryForward]
    split_ifs with h
    · rw [ih, filledFrom_cons]
    · rw [filledFrom_complete ids _ (by simpa using h)]

theorem carryForward_stops (prevs : List Row) (ids : Ids) :
    ∃ k, k ≤ prevs.length ∧ (carryForward ids prevs).2 = prevs.drop k ∧
      ((carryForward ids prevs).1.incomplete = false ∨ k = prevs.length) ∧
      ∀ j, j < k → (filledFrom ids (prevs.take j)).incomplete = true := by
  induction prevs generalizing ids with
  | nil => exact ⟨0, le_refl _, rfl, Or.inr rfl, fun j hj => absurd hj (Nat.not_lt_zero j)⟩
  | cons p ps ih =>
    rw [carryForward]
    split_ifs with h
    · obtain ⟨k, hk, hdrop, hend, hmin⟩ := ih (ids.fillFrom p)
      refine ⟨k + 1, by simpa using hk, by simpa using hdrop, ?_, ?_⟩
      · rcases hend with h1 | h1
        · exact Or.inl h1
        · exact Or.inr (by simp [h1])
      · intro j hj
        cases j with
        | zero => simpa [filledFrom_nil] using h
        | succ j =>
          rw [List.take_succ_cons, filledFrom_cons]
          exact hmin j (by omega)
    · exact ⟨0, Nat.zero_le _, rfl, Or.inl (by simpa using h),
        fun j hj => absurd hj (Nat.not_lt_zero j)⟩

/-- C10: for every sequence of rows and every row of it, `before` being the
rows before it, the loop leaves in each of `classNumber`, `section` and
`component` the row's own value when it is not empty, otherwise the value of
the nearest preceding row where that field is not empty, or the empty string;
the loop ends, after visiting `k` rows, where `k` is the first count at which
the three fields are all filled, or the number of preceding rows. -/
theorem carryForward_nearest (before : List Row) (row : Row) :
    (carryForward ⟨row.classNumber, row.sectionText, row.component⟩ before.reverse).1.classNumber
        = nearestNonEmpty (row.classNumber :: before.reverse.map (·.classNumber)) ∧
      (carryForward ⟨row.classNumber, row.sectionText, row.component⟩ before.reverse).1.sectionText
        = nearestNonEmpty (row.sectionText :: before.reverse.map (·.sectionText)) ∧
      (carryForward ⟨row.classNumber, row.sectionText, row.component⟩ before.reverse).1.component
        = nearestNonEmpty (row.component :: before.reverse.map (·.component)) ∧
      ∃ k, k ≤ before.length ∧
        (carryForward ⟨row.classNumber, row.sectionText, row.component⟩ before.reverse).2
          = before.reverse.drop k ∧
        ((carryForward ⟨row.classNumber, row.sectionText, row.component⟩
            before.reverse).1.incomplete = false ∨ k = before.length) ∧
        ∀ j, j < k →
          (filledFrom ⟨row.classNumber, row.sectionText, row.component⟩
            (before.reverse.take j)).incomplete = true := by
  refine ⟨?_, ?_, ?_, ?_⟩
  · rw [carryForward_fields]; rfl
  · rw [carryForward_fields]; rfl
  · rw [carryForward_fields]; rfl
  · simpa using carryForward_stops before.reverse ⟨row.classNumber, row.sectionText, row.component⟩

/-! ## White space -/

theorem isSpace_of_isDigit {c : Nat} (h : isDigit c = true) : isSpace c = false := by
  rw [isDigit_iff] at h
  simp only [isSpace, Bool.or_eq_false_iff, beq_eq_false_iff_ne, ne_eq, Bool.and_eq_false_iff,
    decide_eq_false_iff_not]
  refine ⟨⟨⟨⟨⟨⟨⟨⟨⟨⟨⟨⟨⟨⟨?_, ?_⟩, ?_⟩, ?_⟩, ?_⟩, ?_⟩, ?_⟩, ?_⟩, ?_⟩, ?_⟩, ?_⟩, ?_⟩, ?_⟩, ?_⟩, ?_⟩ <;> omega

/-! ## The numeric conversions on digits -/

theorem digitsValue_foldl_bound (s : JSString) (acc : Nat) (h : s.all isDigit = true) :
    s.foldl (fun acc c => 10 * acc + (c - 48)) acc + 1 ≤ (acc + 1) * 10 ^ s.length := by
  induction s generalizing acc with
  | nil => simp
  | cons c cs ih =>
    simp only [List.all_cons, Bool.and_eq_true, isDigit_iff] at h
    have step := ih (10 * acc + (c - 48)) h.2
    have : (10 * acc + (c - 48) + 1) * 10 ^ cs.length ≤ ((acc + 1) * 10) * 10 ^ cs.length :=
      Nat.mul_le_mul_right _ (by omega)
    simp only [List.foldl_cons, List.length_cons, pow_succ]
    calc _ ≤ _ := step
      _ ≤ _ := this
      _ = _ := by ring

theorem digitsValue_lt (s : JSString) (h : s.all isDigit = true) :
    digitsValue s < 10 ^ s.length := by
  have := digitsValue_foldl_bound s 0 h
  unfold digitsValue
  omega

theorem dropWhile_isSpace_digits (s : JSString) (h : s.all isDigit = true) :
    s.dropWhile isSpace = s := by
  cases s with
  | nil => rfl
  | cons c cs =>
    simp only [List.all_cons, Bool.and_eq_true] at h
    rw [List.dropWhile_cons_of_neg (by simp [isSpace_of_isDigit h.1])]

theorem jsTrim_digits (s : JSString) (h : s.all isDigit = true) : jsTrim s = s := by
  unfold jsTrim
  rw [dropWhile_isSpace_digits s h, dropWhile_isSpace_digits s.reverse (by simpa using h),
    List.reverse_reverse]

theorem stringLtNat_digits (s : JSString) (k : Nat) (h : s.all isDigit = true) (hne : s ≠ []) :
    stringLtNat s k = some (decide (digitsValue s < k)) := by
  unfold stringLtNat
  rw [jsTrim_digits s h, if_neg hne, if_pos h]

theorem parseInt10_digits (s : JSString) (h : s.all isDigit = true) (hne : s ≠ []) :
    parseInt10 s = .int (digitsValue s) := by
  unfold parseInt10
  rw [dropWhile_isSpace_digits s h]
  cases s with
  | nil => exact absurd rfl hne
  | cons c cs =>
    have hc : isDigit c = true := by
      simp only [List.all_cons, Bool.and_eq_true] at h; exact h.1
    have htw : (c :: cs).takeWhile isDigit = c :: cs := by
      rw [List.takeWhile_eq_self_iff]
      intro x hx
      exact (List.all_eq_true.mp h) x hx
    rw [isDigit_iff] at hc
    simp only [htw]
    rw [if_neg (by omega), if_neg (by omega), if_neg (by simp)]

theorem natToString_ne_nil (n : Nat) : natToString n ≠ [] := by
  have key : ∀ fuel m acc, acc ≠ [] → natDigits fuel m acc ≠ [] := by
    intro fuel
    induction fuel with
    | zero => intro m acc h; simpa [natDigits] using h
    | succ k ih =>
      intro m acc h
      unfold natDigits
      split_ifs
      · simp
      · exact ih _ _ (by simp)
  unfold natToString natDigits
  split_ifs
  · simp
  · exact key _ _ _ (by simp)

/-- The `PM` branch on digits: the result is a run of decimal digits. -/
theorem getTimeString_pm_digits (hs ms : JSString)
    (hh : hs.all isDigit = true) (hl : hs.length = 1 ∨ hs.length = 2)
    (hm : ms.all isDigit = true) (hml : ms.length = 2) :
    ∃ r, getTimeString (hs ++ utf16 ":" ++ ms ++ utf16 "PM") = some r ∧
      r.all isDigit = true := by
  obtain ⟨c, d, rfl⟩ : ∃ c d, ms = [c, d] := by
    match ms, hml with
    | [c, d], _ => exact ⟨c, d, rfl⟩
  have hm' := hm
  simp only [List.all_cons, List.all_nil, Bool.and_true, Bool.and_eq_true, isDigit_iff] at hm
  obtain ⟨⟨hc1, hc2⟩, hd1, hd2⟩ := hm
  have c65 : c ≠ 65 := by omega
  have c80 : c ≠ 80 := by omega
  have c58 : c ≠ 58 := by omega
  have d58 : d ≠ 58 := by omega
  have d77 : d ≠ 77 := by omega
  have d80 : d ≠ 80 := by omega
  have hz : isDigit 48 = true := by decide
  rcases hl with hl | hl
  · obtain ⟨a, rfl⟩ : ∃ a, hs = [a] := by
      match hs, hl with
      | [a], _ => exact ⟨a, rfl⟩
    have hh' := hh
    simp only [List.all_cons, List.all_nil, Bool.and_true, isDigit_iff] at hh
    have a65 : a ≠ 65 := by omega
    have a80 : a ≠ 80 := by omega
    have a58 : a ≠ 58 := by omega
    have hda : isDigit a = true := by rw [isDigit_iff]; exact hh
    have hdc : isDigit c = true := by rw [isDigit_iff]; exact ⟨hc1, hc2⟩
    have hdd : isDigit d = true := by rw [isDigit_iff]; exact ⟨hd1, hd2⟩
    have e1 : getTimeString ([a] ++ utf16 ":" ++ [c, d] ++ utf16 "PM")
        = match stringLtNat [48, a] 12 with
          | none => none
          | some true => (numAddNat (parseInt10 [48, a, c, d, 48, 48]) 120000).map numToString
          | some false => some [48, a, c, d, 48, 48] := by
      simp [getTimeString, utf16_colon, utf16_PM, utf16_zeros, matchesAPM, matchesPM, splitOn, *]
    have hall : ([48, a, c, d, 48, 48] : JSString).all isDigit = true := by
      simp [hda, hdc, hdd, hz]
    rw [e1, stringLtNat_digits [48, a] 12 (by simp [hda, hz]) (by simp)]
    by_cases hlt : digitsValue [48, a] < 12
    · rw [decide_eq_true hlt]
      have hv := digitsValue_lt _ hall
      simp only [List.length_cons, List.length_nil] at hv
      rw [parseInt10_digits _ hall (by simp)]
      simp only [numAddNat, Int.natAbs_ofNat]
      rw [if_pos (by omega)]
      refine ⟨_, rfl, ?_⟩
      have : ((digitsValue [48, a, c, d, 48, 48] : Nat) : Int) + ((120000 : Nat) : Int)
          = ((digitsValue [48, a, c, d, 48, 48] + 120000 : Nat) : Int) := by push_cast; rfl
      rw [numToString, this, intToString_natCast]
      exact natToString_all_digit _
    · rw [decide_eq_false hlt]
      exact ⟨_, rfl, hall⟩
  · obtain ⟨a, b, rfl⟩ : ∃ a b, hs = [a, b] := by
      match hs, hl with
      | [a, b], _ => exact ⟨a, b, rfl⟩
    have hh' := hh
    simp only [List.all_cons, List.all_nil, Bool.and_true, Bool.and_eq_true, isDigit_iff] at hh
    obtain ⟨⟨ha1, ha2⟩, hb1, hb2⟩ := hh
    have a65 : a ≠ 65 := by omega
    have a80 : a ≠ 80 := by omega
    have a58 : a ≠ 58 := by omega
    have b65 : b ≠ 65 := by omega
    have b80 : b ≠ 80 := by omega
    have b58 : b ≠ 58 := by omega
    have b77 : b ≠ 77 := by omega
    have hda : isDigit a = true := by rw [isDigit_iff]; exact ⟨ha1, ha2⟩
    have hdb : isDigit b = true := by rw [isDigit_iff]; exact ⟨hb1, hb2⟩
    have hdc : isDigit c = true := by rw [isDigit_iff]; exact ⟨hc1, hc2⟩
    have hdd : isDigit d = true := by rw [isDigit_iff]; exact ⟨hd1, hd2⟩
    have e1 : getTimeString ([a, b] ++ utf16 ":" ++ [c, d] ++ utf16 "PM")
        = match stringLtNat [a, b] 12 with
          | none => none
          | some true => (numAddNat (parseInt10 [a, b, c, d, 48, 48]) 120000).map numToString
          | some false => some [a, b, c, d, 48, 48] := by
      simp [getTimeString, utf16_colon, utf16_PM, utf16_zeros, matchesAPM, matchesPM, splitOn, *]
    have hall : ([a, b, c, d, 48, 48] : JSString).all isDigit = true := by
      simp [hda, hdb, hdc, hdd, hz]
    rw [e1, stringLtNat_digits [a, b] 12 hh' (by simp)]
    by_cases hlt : digitsValue [a, b] < 12
    · rw [decide_eq_true hlt]
      have hv := digitsValue_lt _ hall
      simp only [List.length_cons, List.length_nil] at hv
      rw [parseInt10_digits _ hall (by simp)]
      simp only [numAddNat, Int.natAbs_ofNat]
      rw [if_pos (by omega)]
      refine ⟨_, rfl, ?_⟩
      have : ((digitsValue [a, b, c, d, 48, 48] : Nat) : Int) + ((120000 : Nat) : Int)
          = ((digitsValue [a, b, c, d, 48, 48] + 120000 : Nat) : Int) := by push_cast; rfl
      rw [numToString, this, intToString_natCast]
      exact natToString_all_digit _
    · rw [decide_eq_false hlt]
      exact ⟨_, rfl, hall⟩

/-! ## What the regular expressions match -/

theorem suffixLen_shape (r : JSString) :
    (suffixLen r = 0) ∨
      (suffixLen r = 2 ∧ (r.take 2 = utf16 "AM" ∨ r.take 2 = utf16 "PM")) := by
  match r with
  | [] => exact Or.inl rfl
  | [_] => exact Or.inl rfl
  | a :: m :: rest =>
    rw [suffixLen]
    split_ifs with h
    · right
      refine ⟨rfl, ?_⟩
      obtain ⟨h1 | h1, h2⟩ := h
      · left; rw [h1, h2, utf16_AM]; rfl
      · right; rw [h1, h2, utf16_PM]; rfl
    · exact Or.inl rfl

theorem timeTailAt_shape (s : JSString) (n : Nat) (h : timeTailAt s = some n) :
    ∃ ms suf, s.take n = utf16 ":" ++ ms ++ suf ∧ ms.all isDigit = true ∧ ms.length = 2 ∧
      (suf = utf16 "" ∨ suf = utf16 "AM" ∨ suf = utf16 "PM") := by
  match s, h with
  | c :: d :: e :: rest, h =>
    rw [timeTailAt] at h
    split_ifs at h with hc
    obtain ⟨rfl, hd, he⟩ := hc
    injection h with h
    subst h
    refine ⟨[d, e], rest.take (suffixLen rest), ?_, by simp [hd, he], rfl, ?_⟩
    · rw [utf16_colon]
      have : 3 + suffixLen rest = suffixLen rest + 1 + 1 + 1 := by omega
      rw [this]
      simp [List.take_succ_cons]
    · rcases suffixLen_shape rest with h0 | ⟨h2, hAM | hPM⟩
      · left; rw [h0, utf16_empty]; rfl
      · right; left; rw [h2]; exact hAM
      · right; right; rw [h2]; exact hPM

theorem matchTimeAt_shape (s : JSString) (n : Nat) (h : matchTimeAt s = some n) :
    ∃ hs ms suf, s.take n = hs ++ utf16 ":" ++ ms ++ suf ∧
      hs.all isDigit = true ∧ (hs.length = 1 ∨ hs.length = 2) ∧
      ms.all isDigit = true ∧ ms.length = 2 ∧
      (suf = utf16 "" ∨ suf = utf16 "AM" ∨ suf = utf16 "PM") := by
  have one : ∀ a b rest k, isDigit a = true → (timeTailAt (b :: rest)).map (1 + ·) = some k →
      ∃ hs ms suf, (a :: b :: rest).take k = hs ++ utf16 ":" ++ ms ++ suf ∧
        hs.all isDigit = true ∧ (hs.length = 1 ∨ hs.length = 2) ∧
        ms.all isDigit = true ∧ ms.length = 2 ∧
        (suf = utf16 "" ∨ suf = utf16 "AM" ∨ suf = utf16 "PM") := by
    intro a b rest k ha hk
    cases ht : timeTailAt (b :: rest) with
    | none => rw [ht] at hk; cases hk
    | some n1 =>
      rw [ht] at hk
      simp only [Option.map_some', Option.some.injEq] at hk
      subst hk
      obtain ⟨ms, suf, h1, h2, h3, h4⟩ := timeTailAt_shape _ _ ht
      refine ⟨[a], ms, suf, ?_, by simp [ha], Or.inl rfl, h2, h3, h4⟩
      rw [show 1 + n1 = n1 + 1 by omega, List.take_succ_cons, h1]
      simp
  match s, h with
  | a :: b :: rest, h =>
    rw [matchTimeAt] at h
    split_ifs at h with ha hb
    · cases ht : timeTailAt rest with
      | some n1 =>
        rw [ht] at h
        simp only [Option.some.injEq] at h
        subst h
        obtain ⟨ms, suf, h1, h2, h3, h4⟩ := timeTailAt_shape _ _ ht
        refine ⟨[a, b], ms, suf, ?_, by simp [ha, hb], Or.inr rfl, h2, h3, h4⟩
        rw [show 2 + n1 = n1 + 1 + 1 by omega, List.take_succ_cons, List.take_succ_cons, h1]
        simp
      | none =>
        rw [ht] at h
        exact one a b rest n ha h
    · exact one a b rest n ha h

theorem globalMatch_mem (matchAt : JSString → Option Nat) (s : JSString) (skip : Nat)
    (t : JSString) (h : t ∈ globalMatch matchAt skip s) :
    ∃ s1 n, matchAt s1 = some n ∧ t = s1.take n := by
  induction s generalizing skip with
  | nil => simp [globalMatch] at h
  | cons c cs ih =>
    cases skip with
    | succ k =>
      rw [globalMatch] at h
      exact ih k h
    | zero =>
      rw [globalMatch] at h
      cases hm : matchAt (c :: cs) with
      | none =>
        rw [hm] at h
        exact ih 0 h
      | some n =>
        rw [hm] at h
        simp only [List.mem_cons] at h
        rcases h with h | h
        · exact ⟨c :: cs, n, hm, h⟩
        · exact ih _ h

/-! ## The collapse of white space -/

theorem stableSeg_tail (a : Nat) (w : JSString) (h : stableSeg (a :: w) = true) :
    stableSeg w = true := by
  cases w with
  | nil => rfl
  | cons b r =>
    rw [stableSeg, Bool.and_eq_true] at h
    exact h.2

theorem stableSeg_append (u v : JSString) (hu : stableSeg u = true) (hv : stableSeg v = true) :
    stableSeg (u ++ v) = true := by
  induction u with
  | nil => simpa using hv
  | cons a u ih =>
    cases u with
    | nil =>
      cases v with
      | nil => simpa using hu
      | cons b r =>
        rw [stableSeg] at hu
        simp only [List.singleton_append]
        rw [stableSeg, hu]
        simpa using hv
    | cons b r =>
      rw [stableSeg, Bool.and_eq_true] at hu
      simp only [List.cons_append] at ih ⊢
      rw [stableSeg, Bool.and_eq_true]
      exact ⟨hu.1, ih hu.2⟩

theorem stableSeg_of_noSpace (s : JSString) (h : noSpace s = true) : stableSeg s = true := by
  induction s with
  | nil => rfl
  | cons a s ih =>
    simp only [noSpace, List.all_cons, Bool.and_eq_true] at h
    cases s with
    | nil => rw [stableSeg]; exact h.1
    | cons b r =>
      rw [stableSeg, Bool.and_eq_true]
      exact ⟨by simp [h.1], ih (by simpa [noSpace] using h.2)⟩

theorem noSpace_append (u v : JSString) :
    noSpace (u ++ v) = (noSpace u && noSpace v) := by
  simp [noSpace]

theorem noSpace_of_digits (s : JSString) (h : s.all isDigit = true) : noSpace s = true := by
  rw [noSpace, List.all_eq_true]
  intro c hc
  rw [isSpace_of_isDigit ((List.all_eq_true.mp h) c hc)]
  rfl

/-- A code unit that is not white space is kept. -/
theorem replaceSpaceRuns_keep (x : Nat) (post : JSString) (hx : isSpace x = false) :
    replaceSpaceRuns none (x :: post) = x :: replaceSpaceRuns none post := by
  rw [replaceSpaceRuns, if_neg (by simp [hx])]

/-- A single code unit of white space, before a code unit that is not, is kept. -/
theorem replaceSpaceRuns_single (c x : Nat) (post : JSString) (hc : isSpace c = true)
    (hx : isSpace x = false) :
    replaceSpaceRuns none (c :: x :: post) = c :: x :: replaceSpaceRuns none post := by
  rw [replaceSpaceRuns, if_pos hc, replaceSpaceRuns, if_neg (by simp [hx])]

theorem replaceSpaceRuns_rest_of_run (run : JSString) (c : Nat) (post : JSString)
    (hrun : run.all isSpace = true)
    (hpost : post = [] ∨ ∃ x r, post = x :: r ∧ isSpace x = false) :
    replaceSpaceRuns (some (c, true)) (run ++ post) = 32 :: replaceSpaceRuns none post := by
  induction run with
  | nil =>
    rcases hpost with rfl | ⟨x, r, rfl, hx⟩
    · rfl
    · rw [replaceSpaceRuns_keep x r hx, List.nil_append, replaceSpaceRuns,
        if_neg (by simp [hx])]
  | cons w run ih =>
    simp only [List.all_cons, Bool.and_eq_true] at hrun
    rw [List.cons_append, replaceSpaceRuns, if_pos hrun.1, ih hrun.2]

/-- A run of two or more code units of white space, up to the end of the
string or to a code unit that is not white space, becomes one space. -/
theorem replaceSpaceRuns_run (a b : Nat) (run post : JSString) (ha : isSpace a = true)
    (hb : isSpace b = true) (hrun : run.all isSpace = true)
    (hpost : post = [] ∨ ∃ x r, post = x :: r ∧ isSpace x = false) :
    replaceSpaceRuns none (a :: b :: run ++ post) = 32 :: replaceSpaceRuns none post := by
  rw [List.cons_append, List.cons_append, replaceSpaceRuns, if_pos ha, replaceSpaceRuns,
    if_pos hb, replaceSpaceRuns_rest_of_run run a post hrun hpost]

theorem replaceSpaceRuns_stable (w : JSString) (post : JSString) :
    (stableSeg w = true →
        replaceSpaceRuns none (w ++ post) = w ++ replaceSpaceRuns none post) ∧
      (∀ c x r, w = x :: r → isSpace x = false → stableSeg w = true →
        replaceSpaceRuns (some (c, false)) (w ++ post)
          = c :: (w ++ replaceSpaceRuns none post)) := by
  induction w with
  | nil => exact ⟨fun _ => rfl, fun c x r h => by cases h⟩
  | cons a w ih =>
    constructor
    · intro hs
      by_cases ha : isSpace a = true
      · cases w with
        | nil => rw [stableSeg, ha] at hs; cases hs
        | cons b r =>
          have hb : isSpace b = false := by
            have hs1 := hs
            rw [stableSeg, ha] at hs1
            simp only [Bool.not_true, Bool.false_or, Bool.and_eq_true, Bool.not_eq_true'] at hs1
            exact hs1.1
          have := ih.2 a b r rfl hb (stableSeg_tail a _ hs)
          rw [List.cons_append, replaceSpaceRuns, if_pos ha, this]
          rfl
      · rw [List.cons_append, replaceSpaceRuns, if_neg ha, ih.1 (stableSeg_tail a _ hs)]
        rfl
    · intro c x r hw hx hs
      injection hw with h1 h2
      subst h1 h2
      rw [List.cons_append, replaceSpaceRuns, if_neg (by simp [hx]), ih.1 (stableSeg_tail a _ hs)]
      rfl

theorem replaceSpaceRuns_prefix (w post : JSString) (h : stableSeg w = true) :
    replaceSpaceRuns none (w ++ post) = w ++ replaceSpaceRuns none post :=
  (replaceSpaceRuns_stable w post).1 h

theorem replaceSpaceRuns_reach (pre : JSString) (st : Option (Nat × Bool)) (x : Nat)
    (post : JSString) (hx : isSpace x = false) :
    ∃ out, replaceSpaceRuns st (pre ++ x :: post) = out ++ x :: replaceSpaceRuns none post := by
  induction pre generalizing st with
  | nil =>
    match st with
    | none => exact ⟨[], by rw [List.nil_append, replaceSpaceRuns, if_neg (by simp [hx])]; rfl⟩
    | some (c, false) =>
      exact ⟨[c], by rw [List.nil_append, replaceSpaceRuns, if_neg (by simp [hx])]; rfl⟩
    | some (c, true) =>
      exact ⟨[32], by rw [List.nil_append, replaceSpaceRuns, if_neg (by simp [hx])]; rfl⟩
  | cons p pre ih =>
    by_cases hp : isSpace p = true
    · match st with
      | none =>
        obtain ⟨out, h⟩ := ih (some (p, false))
        exact ⟨out, by rw [List.cons_append, replaceSpaceRuns, if_pos hp, h]⟩
      | some (c, false) =>
        obtain ⟨out, h⟩ := ih (some (c, true))
        exact ⟨out, by rw [List.cons_append, replaceSpaceRuns, if_pos hp, h]⟩
      | some (c, true) =>
        obtain ⟨out, h⟩ := ih (some (c, true))
        exact ⟨out, by rw [List.cons_append, replaceSpaceRuns, if_pos hp, h]⟩
    · obtain ⟨out, h⟩ := ih none
      match st with
      | none =>
        exact ⟨p :: out, by rw [List.cons_append, replaceSpaceRuns, if_neg hp, h]; rfl⟩
      | some (c, false) =>
        exact ⟨c :: p :: out, by rw [List.cons_append, replaceSpaceRuns, if_neg hp, h]; rfl⟩
      | some (c, true) =>
        exact ⟨32 :: p :: out, by rw [List.cons_append, replaceSpaceRuns, if_neg hp, h]; rfl⟩

theorem replaceSpaceRuns_infix (pre seg post : JSString) (x : Nat) (r : JSString)
    (hseg : seg = x :: r) (hx : isSpace x = false) (hs : stableSeg seg = true) :
    seg <:+: replaceSpaceRuns none (pre ++ seg ++ post) := by
  subst hseg
  obtain ⟨out, h⟩ := replaceSpaceRuns_reach pre none x (r ++ post) hx
  refine ⟨out, replaceSpaceRuns none post, ?_⟩
  have e : pre ++ x :: r ++ post = pre ++ x :: (r ++ post) := by simp
  rw [e, h, replaceSpaceRuns_prefix r post (stableSeg_tail x r hs)]
  simp

/-! ## `main`: the event of a row -/

/-- Every time that `main` extracts is formatted, to decimal digits. -/
theorem time_match_formats (s : JSString) (skip : Nat) (t : JSString)
    (h : t ∈ globalMatch matchTimeAt skip s) :
    ∃ r, getTimeString t = some r ∧ r.all isDigit = true := by
  obtain ⟨s1, n, hm, rfl⟩ := globalMatch_mem matchTimeAt s skip t h
  obtain ⟨hs, ms, suf, e, hh, hl, hmd, hml, hsuf⟩ := matchTimeAt_shape s1 n hm
  rw [e]
  rcases hsuf with h0 | hAM | hPM
  · refine ⟨_, getTimeString_plain hs ms suf hh hl hmd hml (Or.inl h0), ?_⟩
    rcases hl with hl | hl
    · rw [if_pos hl]; simp [utf16_zero, utf16_zeros, hh, hmd]; decide
    · rw [if_neg (by omega)]; simp [utf16_zeros, hh, hmd]; decide
  · refine ⟨_, getTimeString_plain hs ms suf hh hl hmd hml (Or.inr hAM), ?_⟩
    rcases hl with hl | hl
    · rw [if_pos hl]; simp [utf16_zero, utf16_zeros, hh, hmd]; decide
    · rw [if_neg (by omega)]; simp [utf16_zeros, hh, hmd]; decide
  · rw [hPM]
    exact getTimeString_pm_digits hs ms hh hl hmd hml

theorem intToString_noSpace (y : Int) : noSpace (intToString y) = true := by
  unfold intToString
  split_ifs
  · have := noSpace_of_digits _ (natToString_all_digit y.natAbs)
    simp only [noSpace, List.all_cons, Bool.and_eq_true] at this ⊢
    exact ⟨by decide, this⟩
  · exact noSpace_of_digits _ (natToString_all_digit y.natAbs)

theorem getDateString_noSpace (y : Int) (m d : Nat) (hv : ValidCivil y m d) :
    noSpace (getDateString (civilDate y m d)) = true := by
  rw [getDateString_eq y m d hv]
  have hb := daysInMonth_bounds y m
  obtain ⟨m1, m12, d1, dn⟩ := hv
  rw [noSpace_append, noSpace_append, intToString_noSpace,
    noSpace_of_digits _ (twoDigits_all_digit m (by omega)),
    noSpace_of_digits _ (twoDigits_all_digit d (by omega))]
  rfl

theorem getDaysOfWeek_noSpace (s : JSString) : noSpace (getDaysOfWeek s) = true := by
  unfold getDaysOfWeek
  generalize jsTrim s = t
  by_cases h1 : t = utf16 "Dim"
  · subst h1; decide
  by_cases h2 : t = utf16 "Lun"
  · subst h2; decide
  by_cases h3 : t = utf16 "Ma"
  · subst h3; decide
  by_cases h4 : t = utf16 "Mer"
  · subst h4; decide
  by_cases h5 : t = utf16 "J"
  · subst h5; decide
  by_cases h6 : t = utf16 "V"
  · subst h6; decide
  by_cases h7 : t = utf16 "Sa"
  · subst h7; decide
  simp only [h1, h2, h3, h4, h5, h6, h7, if_false, joinComma]
  rfl

/-- The date and time of a calendar date and an extracted time has no white space. -/
theorem getDateTimeString_noSpace (y : Int) (m d : Nat) (hv : ValidCivil y m d)
    (s : JSString) (skip : Nat) (t : JSString) (h : t ∈ globalMatch matchTimeAt skip s) :
    ∃ r, getDateTimeString (civilDate y m d) t = some r ∧ noSpace r = true := by
  obtain ⟨r, hr, hd⟩ := time_match_formats s skip t h
  refine ⟨getDateString (civilDate y m d) ++ utf16 "T" ++ r, by simp [getDateTimeString, hr], ?_⟩
  rw [noSpace_append, noSpace_append, getDateString_noSpace y m d hv, noSpace_of_digits r hd]
  decide

theorem eventTemplate_split (dtStart dtEnd untilDt exdate daysOfWeek courseCode : JSString)
    (courseName : Option JSString) (ids : Ids) (row : Row) :
    ∃ rest,
      eventTemplate (utf16 "America/Toronto") dtStart dtEnd untilDt exdate daysOfWeek
          courseCode courseName ids row
        = (utf16 "BEGIN:VEVENT\nDTSTART;TZID=America/Toronto:" ++ dtStart ++
            utf16 "\nDTEND;TZID=America/Toronto:" ++ dtEnd ++ utf16 "\nLOCATION:") ++
          ((row.room ++ utf16 "\n") ++
          ((utf16 "RRULE:FREQ=WEEKLY;UNTIL=" ++ untilDt ++ utf16 "Z;BYDAY=" ++ daysOfWeek ++
            utf16 "\nEXDATE;TZID=America/Toronto:" ++ exdate ++ utf16 "\nSUMMARY:") ++ rest)) ∧
      eventTemplate (utf16 "America/Toronto") dtStart dtEnd untilDt exdate daysOfWeek
          courseCode courseName ids row
        = ((utf16 "BEGIN:VEVENT\nDTSTART;TZID=America/Toronto:" ++ dtStart ++
            utf16 "\nDTEND;TZID=America/Toronto:" ++ dtEnd ++ utf16 "\nLOCATION:") ++
          (row.room ++ utf16 "\n")) ++
          (utf16 "RRULE:FREQ=WEEKLY;UNTIL=" ++ untilDt ++ utf16 "Z;BYDAY=" ++ daysOfWeek ++
            utf16 "\nEXDATE;TZID=America/Toronto:" ++ exdate ++ utf16 "\nSUMMARY:") ++ rest := by
  have e1 : utf16 "BEGIN:VEVENT\nDTSTART;TZID=America/Toronto:"
      = utf16 "BEGIN:VEVENT\n" ++ utf16 "DTSTART;TZID=" ++ utf16 "America/Toronto" ++ utf16 ":" := by
    decide
  have e2 : utf16 "\nDTEND;TZID=America/Toronto:"
      = utf16 "\n" ++ utf16 "DTEND;TZID=" ++ utf16 "America/Toronto" ++ utf16 ":" := by decide
  have e3 : utf16 "\nLOCATION:" = utf16 "\n" ++ utf16 "LOCATION:" := by decide
  have e4 : utf16 "\nEXDATE;TZID=America/Toronto:"
      = utf16 "\n" ++ utf16 "EXDATE;TZID=" ++ utf16 "America/Toronto" ++ utf16 ":" := by decide
  have e5 : utf16 "\nSUMMARY:" = utf16 "\n" ++ utf16 "SUMMARY:" := by decide
  refine ⟨courseCode ++ utf16 " (" ++ ids.component ++ utf16 ")" ++ utf16 "\n" ++
    utf16 "DESCRIPTION:" ++
      utf16 "Nom du cours: " ++ orUndefined courseName ++ utf16 "\\n" ++
      utf16 "Section: " ++ ids.sectionText ++ utf16 "\\n" ++
      utf16 "Instructeur: " ++ row.instructor ++ utf16 "\\n" ++
      utf16 "Volet: " ++ ids.component ++ utf16 "\\n" ++
      utf16 "Numéro du cours: " ++ ids.classNumber ++ utf16 "\\n" ++
      utf16 "Jour/Heures: " ++ row.daysTimes ++ utf16 "\\n" ++
      utf16 "Dates de début/fin: " ++ row.startEndDate ++ utf16 "\\n" ++
      utf16 "Lieu: " ++ row.room ++ utf16 "\\n\n" ++
    utf16 "END:VEVENT\n", ?_, ?_⟩ <;>
  · rw [e1, e2, e3, e4, e5]
    unfold eventTemplate
    simp only [List.append_assoc]

theorem stable_head (a b : JSString) (ha : noSpace a = true) (hb : noSpace b = true) :
    stableSeg (utf16 "BEGIN:VEVENT\nDTSTART;TZID=America/Toronto:" ++ a ++
      utf16 "\nDTEND;TZID=America/Toronto:" ++ b ++ utf16 "\nLOCATION:") = true := by
  refine stableSeg_append _ _ (stableSeg_append _ _ (stableSeg_append _ _
    (stableSeg_append _ _ ?_ (stableSeg_of_noSpace a ha)) ?_) (stableSeg_of_noSpace b hb)) ?_ <;>
  decide

theorem stable_recurrence (u c x : JSString) (hu : noSpace u = true) (hc : noSpace c = true)
    (hx : noSpace x = true) :
    stableSeg (utf16 "RRULE:FREQ=WEEKLY;UNTIL=" ++ u ++ utf16 "Z;BYDAY=" ++ c ++
      utf16 "\nEXDATE;TZID=America/Toronto:" ++ x ++ utf16 "\nSUMMARY:") = true := by
  refine stableSeg_append _ _ (stableSeg_append _ _ (stableSeg_append _ _
    (stableSeg_append _ _ (stableSeg_append _ _ (stableSeg_append _ _ ?_
      (stableSeg_of_noSpace u hu)) ?_) (stableSeg_of_noSpace c hc)) ?_)
        (stableSeg_of_noSpace x hx)) ?_ <;>
  decide

/-- A row without any time is skipped: the array and the count are unchanged. -/
theorem processRow_no_time (momentL : JSString → JSDate) (courseCode : JSString)
    (courseName : Option JSString) (acc : Acc) (prevs : List Row) (row : Row)
    (h : globalMatch matchTimeAt 0 row.daysTimes = []) :
    processRow momentL courseCode courseName acc prevs row = .ok acc := by
  unfold processRow
  simp only [h]

/-- A row with exactly one time throws a `TypeError`. -/
theorem processRow_one_time (momentL : JSString → JSDate) (courseCode : JSString)
    (courseName : Option JSString) (acc : Acc) (prevs : List Row) (row : Row) (t : JSString)
    (h : globalMatch matchTimeAt 0 row.daysTimes = [t]) :
    processRow momentL courseCode courseName acc prevs row = .error .typeError := by
  obtain ⟨r, hr, -⟩ := time_match_formats row.daysTimes 0 t (by rw [h]; exact List.mem_singleton.mpr rfl)
  unfold processRow
  simp only [h]
  cases firstMatch matchDayAt row.daysTimes with
  | none => rfl
  | some dayToken =>
    cases globalMatch matchDateAt 0 row.startEndDate with
    | nil => rfl
    | cons startDateText moreDates =>
      simp only [dateTimeOf, getDateTimeString, hr, Option.map_some', List.head?_nil]

/-- The event of a row, from the values that `getDateTimeString` returns. -/
theorem processRow_event (momentL : JSString → JSDate) (courseCode : JSString)
    (courseName : Option JSString) (acc : Acc) (prevs : List Row) (row : Row)
    (startTime endTime dayToken startDateText : JSString) (moreTimes moreDates : List JSString)
    (dtStart dtEnd untilDt : JSString)
    (htimes : globalMatch matchTimeAt 0 row.daysTimes = startTime :: endTime :: moreTimes)
    (hday : firstMatch matchDayAt row.daysTimes = some dayToken)
    (hdates : globalMatch matchDateAt 0 row.startEndDate = startDateText :: moreDates)
    (h1 : getDateTimeString
      ((momentL startDateText).setDate ((momentL startDateText).getDate.add (-1))) startTime
        = some dtStart)
    (h2 : getDateTimeString
      ((momentL startDateText).setDate ((momentL startDateText).getDate.add (-1))) endTime
        = some dtEnd)
    (h3 : getDateTimeString
      ((momentL (moreDates.headD startDateText)).setDate
        ((momentL (moreDates.headD startDateText)).getDate.add 1)) endTime = some untilDt) :
    processRow momentL courseCode courseName acc prevs row
      = .ok ⟨acc.iCalContentArray ++ [replaceSpaceRuns none
          (eventTemplate (utf16 "America/Toronto") dtStart dtEnd untilDt dtStart
            (getDaysOfWeek dayToken) courseCode courseName
            (carryForward ⟨row.classNumber, row.sectionText, row.component⟩ prevs).1 row)],
          acc.numberOfEvents + 1⟩ := by
  unfold processRow
  simp only [htimes, hday, hdates, dateTimeOf, h1, h2, h3, List.head?_cons]

/-- C5: for a row with a start and an end time, a weekday token, and dates that
`moment` reads as the calendar dates `S` and `E`, `main` adds one event block.
Its first lines give `DTSTART` as `getDateTimeString` of the day before `S` and
the start time, and `DTEND` as that day and the end time; its `RRULE` line has
`UNTIL` as `getDateTimeString` of the day after `E` and the end time, then `Z`,
and its `EXDATE` line repeats the `DTSTART` value.  The day before and the day
after are the calendar ones, across the ends of months and years. -/
theorem processRow_event_dates (momentL : JSString → JSDate) (courseCode : JSString)
    (courseName : Option JSString) (acc : Acc) (prevs : List Row) (row : Row)
    (startTime endTime dayToken startDateText : JSString) (moreTimes moreDates : List JSString)
    (yS : Int) (mS dS : Nat) (yE : Int) (mE dE : Nat)
    (htimes : globalMatch matchTimeAt 0 row.daysTimes = startTime :: endTime :: moreTimes)
    (hday : firstMatch matchDayAt row.daysTimes = some dayToken)
    (hdates : globalMatch matchDateAt 0 row.startEndDate = startDateText :: moreDates)
    (hS : momentL startDateText = civilDate yS mS dS) (hvS : ValidCivil yS mS dS)
    (hE : momentL (moreDates.headD startDateText) = civilDate yE mE dE)
    (hvE : ValidCivil yE mE dE) :
    ∃ dtStart dtEnd untilDt block,
      getDateTimeString (civilOf (dayBefore yS mS dS)) startTime = some dtStart ∧
      getDateTimeString (civilOf (dayBefore yS mS dS)) endTime = some dtEnd ∧
      getDateTimeString (civilOf (dayAfter yE mE dE)) endTime = some untilDt ∧
      processRow momentL courseCode courseName acc prevs row
        = .ok ⟨acc.iCalContentArray ++ [block], acc.numberOfEvents + 1⟩ ∧
      (utf16 "BEGIN:VEVENT\nDTSTART;TZID=America/Toronto:" ++ dtStart ++
        utf16 "\nDTEND;TZID=America/Toronto:" ++ dtEnd ++ utf16 "\nLOCATION:") <+: block ∧
      (utf16 "RRULE:FREQ=WEEKLY;UNTIL=" ++ untilDt ++ utf16 "Z;BYDAY=" ++
        getDaysOfWeek dayToken ++ utf16 "\nEXDATE;TZID=America/Toronto:" ++ dtStart ++
        utf16 "\nSUMMARY:") <:+: block := by
  have hb := dayBefore_spec yS mS dS hvS
  have ha := dayAfter_spec yE mE dE hvE
  have hst : startTime ∈ globalMatch matchTimeAt 0 row.daysTimes := by
    rw [htimes]; exact List.mem_cons_self _ _
  have het : endTime ∈ globalMatch matchTimeAt 0 row.daysTimes := by
    rw [htimes]; exact List.mem_cons_of_mem _ (List.mem_cons_self _ _)
  obtain ⟨dtStart, h1, n1⟩ := getDateTimeString_noSpace _ _ _ hb.1 _ _ _ hst
  obtain ⟨dtEnd, h2, n2⟩ := getDateTimeString_noSpace _ _ _ hb.1 _ _ _ het
  obtain ⟨untilDt, h3, n3⟩ := getDateTimeString_noSpace _ _ _ ha.1 _ _ _ het
  have hrow := processRow_event momentL courseCode courseName acc prevs row startTime endTime
    dayToken startDateText moreTimes moreDates dtStart dtEnd untilDt htimes hday hdates
    (by rw [hS, setDate_before yS mS dS hvS]; exact h1)
    (by rw [hS, setDate_before yS mS dS hvS]; exact h2)
    (by rw [hE, setDate_after yE mE dE hvE]; exact h3)
  obtain ⟨rest, hsplit, hsplit2⟩ := eventTemplate_split dtStart dtEnd untilDt dtStart
    (getDaysOfWeek dayToken) courseCode courseName
    (carryForward ⟨row.classNumber, row.sectionText, row.component⟩ prevs).1 row
  refine ⟨dtStart, dtEnd, untilDt, _, h1, h2, h3, hrow, ?_, ?_⟩
  · rw [hsplit, replaceSpaceRuns_prefix _ _ (stable_head dtStart dtEnd n1 n2)]
    exact List.prefix_append _ _
  · rw [hsplit2]
    exact replaceSpaceRuns_infix _ _ rest 82
      (utf16 "RULE:FREQ=WEEKLY;UNTIL=" ++ untilDt ++ utf16 "Z;BYDAY=" ++
        getDaysOfWeek dayToken ++ utf16 "\nEXDATE;TZID=America/Toronto:" ++ dtStart ++
        utf16 "\nSUMMARY:")
      (by
        have e : utf16 "RRULE:FREQ=WEEKLY;UNTIL=" = 82 :: utf16 "RULE:FREQ=WEEKLY;UNTIL=" := by
          decide
        rw [e]; simp only [List.cons_append])
      (by decide)
      (stable_recurrence untilDt (getDaysOfWeek dayToken) dtStart n3
        (getDaysOfWeek_noSpace dayToken) n1)

set_option maxRecDepth 1000000 in
theorem lectureRow_matches :
    globalMatch matchTimeAt 0 lectureRow.daysTimes = [utf16 "1:00PM", utf16 "2:20PM"] ∧
      firstMatch matchDayAt lectureRow.daysTimes = some (utf16 "Lun ") ∧
      globalMatch matchDateAt 0 lectureRow.startEndDate
        = [utf16 "01/05/2015", utf16 "04/10/2015"] ∧
      momentMDY (utf16 "01/05/2015") = civilDate 2015 1 5 ∧
      momentMDY (utf16 "04/10/2015") = civilDate 2015 4 10 := by
  decide!

set_option maxRecDepth 1000000 in
theorem lectureRow_values :
    getDateTimeString (civilOf (dayBefore 2015 1 5)) (utf16 "1:00PM")
        = some (utf16 "20150104T130000") ∧
      getDateTimeString (civilOf (dayBefore 2015 1 5)) (utf16 "2:20PM")
        = some (utf16 "20150104T142000") ∧
      getDateTimeString (civilOf (dayAfter 2015 4 10)) (utf16 "2:20PM")
        = some (utf16 "20150411T142000") ∧
      getDaysOfWeek (utf16 "Lun ") = utf16 "MO" := by
  decide!

set_option maxRecDepth 1000000 in
theorem lectureRow_processed :
    processRow momentMDY (utf16 "MAT 1400") (some (utf16 "Calcul 1")) ⟨[], 0⟩ [] lectureRow
      = .ok ⟨[lectureBlock], 1⟩ := by
  decide!

/-- C5 on the lecture of 5 January to 10 April 2015, `Lun 1:00PM - 2:20PM`:
`DTSTART` is `20150104T130000`, the rule ends with
`UNTIL=20150411T142000Z;BYDAY=MO`, and `EXDATE` is `20150104T130000`. -/
theorem processRow_event_dates_witness :
    processRow momentMDY (utf16 "MAT 1400") (some (utf16 "Calcul 1")) ⟨[], 0⟩ [] lectureRow
        = .ok ⟨[lectureBlock], 1⟩ ∧
      (utf16 "BEGIN:VEVENT\nDTSTART;TZID=America/Toronto:" ++ utf16 "20150104T130000" ++
        utf16 "\nDTEND;TZID=America/Toronto:" ++ utf16 "20150104T142000" ++
        utf16 "\nLOCATION:") <+: lectureBlock ∧
      (utf16 "RRULE:FREQ=WEEKLY;UNTIL=" ++ utf16 "20150411T142000" ++ utf16 "Z;BYDAY=" ++
        utf16 "MO" ++ utf16 "\nEXDATE;TZID=America/Toronto:" ++ utf16 "20150104T130000" ++
        utf16 "\nSUMMARY:") <:+: lectureBlock := by
  obtain ⟨dtStart, dtEnd, untilDt, block, h1, h2, h3, h4, h5, h6⟩ :=
    processRow_event_dates momentMDY (utf16 "MAT 1400") (some (utf16 "Calcul 1")) ⟨[], 0⟩ []
      lectureRow (utf16 "1:00PM") (utf16 "2:20PM") (utf16 "Lun ") (utf16 "01/05/2015") []
      [utf16 "04/10/2015"] 2015 1 5 2015 4 10 lectureRow_matches.1 lectureRow_matches.2.1
      lectureRow_matches.2.2.1 lectureRow_matches.2.2.2.1 (by decide)
      lectureRow_matches.2.2.2.2 (by decide)
  rw [lectureRow_values.1] at h1
  rw [lectureRow_values.2.1] at h2
  rw [lectureRow_values.2.2.1] at h3
  rw [lectureRow_values.2.2.2] at h6
  cases h1
  cases h2
  cases h3
  have hb : block = lectureBlock := by
    have e := h4.symm.trans lectureRow_processed
    simpa using e
  subst hb
  exact ⟨h4, h5, h6⟩

/-! ## `main` stays inside the model -/

/-- The numeric conversions that the model leaves out are never reached from
`main`: the times that `getTimeString` receives are matches of the time
expression. -/
theorem processRow_inside_model (momentL : JSString → JSDate) (courseCode : JSString)
    (courseName : Option JSString) (acc : Acc) (prevs : List Row) (row : Row) :
    processRow momentL courseCode courseName acc prevs row ≠ .error .outsideModel := by
  cases htimes : globalMatch matchTimeAt 0 row.daysTimes with
  | nil => simp [processRow, htimes]
  | cons startTime more =>
    obtain ⟨r, hr, -⟩ := time_match_formats row.daysTimes 0 startTime
      (by rw [htimes]; exact List.mem_cons_self _ _)
    cases hday : firstMatch matchDayAt row.daysTimes with
    | none => simp [processRow, htimes, hday]
    | some dayToken =>
      cases hdates : globalMatch matchDateAt 0 row.startEndDate with
      | nil => simp [processRow, htimes, hday, hdates]
      | cons startDateText moreDates =>
        cases more with
        | nil => simp [processRow, htimes, hday, hdates, dateTimeOf, getDateTimeString, hr]
        | cons endTime more2 =>
          obtain ⟨r2, hr2, -⟩ := time_match_formats row.daysTimes 0 endTime
            (by rw [htimes]; exact List.mem_cons_of_mem _ (List.mem_cons_self _ _))
          simp [processRow, htimes, hday, hdates, dateTimeOf, getDateTimeString, hr, hr2]

theorem eachRow_inside_model (momentL : JSString → JSDate) (courseCode : JSString)
    (courseName : Option JSString) (rows : List Row) (acc : Acc) (prevs : List Row) :
    eachRow momentL courseCode courseName acc prevs rows ≠ .error .outsideModel := by
  induction rows generalizing acc prevs with
  | nil => simp [eachRow]
  | cons row rest ih =>
    rw [eachRow]
    cases h : processRow momentL courseCode courseName acc prevs row with
    | error e =>
      intro h1
      simp only [Except.error.injEq] at h1
      exact processRow_inside_model momentL courseCode courseName acc prevs row (by rw [h, h1])
    | ok acc1 => exact ih acc1 (row :: prevs)

theorem main_inside_model (momentL : JSString → JSDate) (groups : List Group) :
    main momentL groups ≠ .error .outsideModel := by
  unfold main
  generalize ({ iCalContentArray := [], numberOfEvents := 0 } : Acc) = acc
  induction groups generalizing acc with
  | nil => simp [eachGroup]
  | cons g gs ih =>
    rw [eachGroup]
    cases h : eachRow momentL (splitStr (utf16 " - ") 0 g.title).1
        (splitStr (utf16 " - ") 0 g.title).2.head? acc [] g.componentRows with
    | error e =>
      intro h1
      simp only [Except.error.injEq] at h1
      exact eachRow_inside_model momentL _ _ g.componentRows acc [] (by rw [h, h1])
    | ok acc1 => exact ih acc1

/-! ## `main`: rows without two times -/

/-- The loop goes on after a row without any time, with the same array and count. -/
theorem eachRow_skips (momentL : JSString → JSDate) (courseCode : JSString)
    (courseName : Option JSString) (acc : Acc) (prevs : List Row) (row : Row) (rest : List Row)
    (h : globalMatch matchTimeAt 0 row.daysTimes = []) :
    eachRow momentL courseCode courseName acc prevs (row :: rest)
      = eachRow momentL courseCode courseName acc (row :: prevs) rest := by
  rw [eachRow, processRow_no_time momentL courseCode courseName acc prevs row h]

/-- The loop ends with a `TypeError` at a row with exactly one time. -/
theorem eachRow_one_time (momentL : JSString → JSDate) (courseCode : JSString)
    (courseName : Option JSString) (acc : Acc) (prevs : List Row) (row : Row) (rest : List Row)
    (t : JSString) (h : globalMatch matchTimeAt 0 row.daysTimes = [t]) :
    eachRow momentL courseCode courseName acc prevs (row :: rest) = .error .typeError := by
  rw [eachRow, processRow_one_time momentL courseCode courseName acc prevs row t h]

set_option maxRecDepth 1000000 in
theorem lectureRow_alone :
    main momentMDY [⟨exampleTitle, [lectureRow]⟩] = .ok ⟨[lectureBlock], 1⟩ := by
  decide!

set_option maxRecDepth 1000000 in
theorem oneTimeRow_evaluated :
    globalMatch matchTimeAt 0 oneTimeRow.daysTimes = [utf16 "1:00PM"] ∧
      main momentMDY [⟨exampleTitle, [oneTimeRow, lectureRow]⟩] = .error .typeError := by
  decide!

/-- C6 fails on the code: from the schedule text `Lun 1:00PM` one time is
extracted, and `main` on that row followed by the lecture row ends with a
`TypeError` and no event, where the lecture row alone gives one event. -/
theorem main_one_time_row_throws :
    globalMatch matchTimeAt 0 oneTimeRow.daysTimes = [utf16 "1:00PM"] ∧
      main momentMDY [⟨exampleTitle, [oneTimeRow, lectureRow]⟩] = .error .typeError ∧
      main momentMDY [⟨exampleTitle, [lectureRow]⟩] = .ok ⟨[lectureBlock], 1⟩ :=
  ⟨oneTimeRow_evaluated.1, oneTimeRow_evaluated.2, lectureRow_alone⟩

/-! ## `main`: white space next to a line break -/

set_option maxRecDepth 1000000 in
theorem spaceRoomRow_evaluated :
    main momentMDY [⟨exampleTitle, [spaceRoomRow]⟩] = .ok ⟨[spaceRoomBlock], 1⟩ := by
  decide!

set_option maxRecDepth 1000000 in
theorem spaceRoomRow_joined_line :
    utf16 "LOCATION:MC 2034 RRULE:FREQ=WEEKLY" <:+: spaceRoomBlock := by
  decide!

set_option maxRecDepth 1000000 in
theorem spaceRoomRow_no_rrule_line :
    ¬ (utf16 "\nRRULE:" <:+: spaceRoomBlock) := by
  decide!

/-- C9 fails on the code: a single space before a line break is a run of two
code units of white space, so the line break after a room text that ends with a
space is replaced, and the `LOCATION` and `RRULE` lines become one line. -/
theorem space_before_line_break_joins_lines :
    replaceSpaceRuns none (utf16 "LOCATION:MC 2034 \nRRULE:FREQ=WEEKLY")
        = utf16 "LOCATION:MC 2034 RRULE:FREQ=WEEKLY" ∧
      main momentMDY [⟨exampleTitle, [spaceRoomRow]⟩] = .ok ⟨[spaceRoomBlock], 1⟩ ∧
      utf16 "LOCATION:MC 2034 RRULE:FREQ=WEEKLY" <:+: spaceRoomBlock ∧
      ¬ (utf16 "\nRRULE:" <:+: spaceRoomBlock) :=
  ⟨by decide, spaceRoomRow_evaluated, spaceRoomRow_joined_line, spaceRoomRow_no_rrule_line⟩

end ScheduleExporter
